import Mathlib

/-!
Verification of the evidence-browser ingestion/resolution/ranking pipeline.

This file gives a shallow embedding, in Lean 4, of the pure core of the
Python sources (`data_loader.py`, `db.py`, `network_builder.py`,
`discovery_engine.py`) and proves or refutes the frozen specification
claims about them.

Modelling conventions:
* Python strings are modelled as `List Char` (`Str`); text in fixed tables
  is written as Lean string literals and converted with `.data`.
* Python `str.lower` / `\w` / `\s` are modelled on the ASCII fragment
  (`pyLower`, `pWord`, `pyWS`); all table text in the program is ASCII.
* Python dicts used in insertion order are modelled as association lists.
* File input is modelled as the list of lines of the file (newline-free).
* All definitions are structurally recursive so that concrete runs of the
  embedded program reduce inside the kernel.
-/

namespace EvidenceBrowser

/-- Python strings as lists of characters. -/
abbrev Str := List Char

/-- Convert a Lean string literal to the `Str` model. -/
def str (s : String) : Str := s.data

/-- Python whitespace characters (`\s`, `str.strip`, `str.split`), ASCII fragment. -/
def pyWS (c : Char) : Bool :=
  c == ' ' || c == '\t' || c == '\n' || c == '\r' || c == Char.ofNat 11 || c == Char.ofNat 12

/-- Python word characters (regex `\w`), ASCII fragment. -/
def pWord (c : Char) : Bool := c.isAlphanum || c == '_'

/-- Uppercase/lowercase ASCII letter pairs, used to model `str.lower`. -/
def upperLower : List (Char × Char) :=
  [('A', 'a'), ('B', 'b'), ('C', 'c'), ('D', 'd'), ('E', 'e'), ('F', 'f'),
   ('G', 'g'), ('H', 'h'), ('I', 'i'), ('J', 'j'), ('K', 'k'), ('L', 'l'),
   ('M', 'm'), ('N', 'n'), ('O', 'o'), ('P', 'p'), ('Q', 'q'), ('R', 'r'),
   ('S', 's'), ('T', 't'), ('U', 'u'), ('V', 'v'), ('W', 'w'), ('X', 'x'),
   ('Y', 'y'), ('Z', 'z')]

/-- Python `str.lower` on one character (ASCII fragment). -/
def pyLower (c : Char) : Char :=
  match upperLower.find? (fun p => p.1 == c) with
  | some p => p.2
  | none => c

/-- Lowercase a whole string, as Python `str.lower`. -/
def lowerStr (l : Str) : Str := l.map pyLower

/-- Drop trailing Python whitespace (right half of `str.strip`). -/
def stripTail : Str → Str
  | [] => []
  | c :: rest => if (stripTail rest).isEmpty && pyWS c then [] else c :: stripTail rest

/-- Python `str.strip`: drop leading and trailing whitespace. -/
def strip (l : Str) : Str := stripTail (l.dropWhile pyWS)

/-- Worker for `collapseWS`; the flag records whether we are inside a
whitespace run whose single replacement space was already emitted. -/
def collapseGo : Bool → Str → Str
  | _, [] => []
  | inRun, c :: rest =>
    if pyWS c then
      if inRun then collapseGo true rest else ' ' :: collapseGo true rest
    else c :: collapseGo false rest

/-- Replace every nonempty run of whitespace by a single space
(`re.sub(r"\s+", " ", ...)`). -/
def collapseWS (l : Str) : Str := collapseGo false l

/-- Worker for `splitWS`; `cur` is the word currently being accumulated. -/
def splitGo (cur : Str) : Str → List Str
  | [] => if cur.isEmpty then [] else [cur]
  | c :: rest =>
    if pyWS c then
      if cur.isEmpty then splitGo [] rest else cur :: splitGo [] rest
    else splitGo (cur ++ [c]) rest

/-- Python `str.split()` (split on whitespace runs, dropping empty parts). -/
def splitWS (l : Str) : List Str := splitGo [] l

/-- `needle` is a prefix of `hay` (character-wise). -/
def isPrefOf : Str → Str → Bool
  | [], _ => true
  | _ :: _, [] => false
  | a :: as, b :: bs => a == b && isPrefOf as bs

/-- Python substring containment `needle in hay`. -/
def containsSub : Str → Str → Bool
  | [], needle => isPrefOf needle []
  | c :: rest, needle => isPrefOf needle (c :: rest) || containsSub rest needle

/-- Python string `<` (code-point lexicographic). -/
def lexLt : Str → Str → Bool
  | [], [] => false
  | [], _ :: _ => true
  | _ :: _, [] => false
  | a :: as, b :: bs =>
    if a.toNat < b.toNat then true
    else if a.toNat == b.toNat then lexLt as bs
    else false

/--
Name normalization from `network_builder.normalize_name`:
strip, lowercase, delete characters not in `\w\s`, collapse whitespace
runs to single spaces, strip again.
-/
def normalizeName (name : Str) : Str :=
  strip (collapseWS ((lowerStr (strip name)).filter (fun c => pWord c || pyWS c)))

/-- Primary case participant (key of `network_builder.PRIMARY_PEOPLE`). -/
structure Primary where
  name : String
  devices : List String
  role : String
deriving DecidableEq, Repr

/-- The curated primary participants table (`network_builder.PRIMARY_PEOPLE`,
in dict insertion order). -/
def PRIMARY_PEOPLE : List Primary :=
  [⟨"Tina Peters", ["iPhone 11", "iPhone SE Black", "iPhone 7"], "defendant"⟩,
   ⟨"Gerald Wood", ["iPhone"], "associate"⟩,
   ⟨"Wendi Woods", ["iPhone", "HP Desktop", "MSI Laptop"], "associate"⟩,
   ⟨"Sherronna Bishop", ["HP Laptop"], "associate"⟩,
   ⟨"Sandra Brown", ["Samsung", "Motorola"], "associate"⟩,
   ⟨"Belinda Knisley", ["Phone"], "colleague"⟩,
   ⟨"Joy Quinn", ["iPhone XR"], "family"⟩,
   ⟨"Zachary Quinn", ["Phone"], "family"⟩,
   ⟨"Conan Hayes", ["T-Mobile records", "Bank records"], "associate"⟩]

/-- The curated alias table (`network_builder.NAME_ALIASES`, insertion order). -/
def NAME_ALIASES : List (String × List String) :=
  [("tina peters", ["tina", "mom", "tina p"]),
   ("wendi woods", ["wendi", "wendi wood", "wendy woods", "wendy wood"]),
   ("joy quinn", ["joy"]),
   ("zachary quinn", ["zachary", "zach", "zach quinn"]),
   ("belinda knisley", ["belinda"]),
   ("sherronna bishop", ["sherronna"]),
   ("sandra brown", ["sandra", "sandye brown", "sandye"]),
   ("gerald wood", ["gerald", "jerry wood"]),
   ("conan hayes", ["conan"])]

/-- Core of `network_builder.match_primary`, operating on the already
normalized name (the Python function computes `norm` once and only uses it).
First an exact match over normalized primary names, then the alias table,
then the conservative partial match: primaries with a multi-token normalized
name are skipped when the input equals their last token and that token is
longer than 3 characters, otherwise they match when every token occurs as a
substring of the input. -/
def matchNorm (norm : Str) : Option String :=
  if norm.isEmpty || norm.length < 3 then none
  else
    match PRIMARY_PEOPLE.findSome? (fun p =>
        if normalizeName p.name.data = norm then some p.name else none) with
    | some p => some p
    | none =>
      match NAME_ALIASES.findSome? (fun pa =>
          pa.2.findSome? (fun a =>
            if norm = a.data || norm = normalizeName a.data then
              PRIMARY_PEOPLE.findSome? (fun p =>
                if normalizeName p.name.data = pa.1.data then some p.name else none)
            else none)) with
      | some p => some p
      | none =>
        PRIMARY_PEOPLE.findSome? (fun p =>
          let parts := splitWS (normalizeName p.name.data)
          if parts.length ≥ 2 then
            if norm = parts.getLastD [] && (parts.getLastD []).length > 3 then none
            else if parts.all (fun q => containsSub norm q) then some p.name
            else none
          else none)

/-- `network_builder.match_primary`. -/
def matchPrimary (name : Str) : Option String := matchNorm (normalizeName name)

/-- The last tokens of the multi-token normalized primary names. -/
def lastNameTokens : List Str :=
  PRIMARY_PEOPLE.filterMap (fun p =>
    let parts := splitWS (normalizeName p.name.data)
    if parts.length ≥ 2 then some (parts.getLastD []) else none)

section NormalizeLemmas

/-- Applying `pyLower` twice is the same as applying it once. -/
theorem pyLower_idem (c : Char) : pyLower (pyLower c) = pyLower c := by
  unfold pyLower
  cases h : upperLower.find? (fun p => p.1 == c) with
  | none => simp [h]
  | some q =>
    have hq : q ∈ upperLower := List.mem_of_find?_eq_some h
    have hnone : ∀ r ∈ upperLower, upperLower.find? (fun p => p.1 == r.2) = none := by decide
    simp [hnone q hq]

/-- Whitespace characters are not word characters. -/
theorem pyWS_not_pWord {c : Char} (h : pyWS c = true) : pWord c = false := by
  simp only [pyWS, Bool.or_eq_true, beq_iff_eq] at h
  rcases h with ((((h | h) | h) | h) | h) | h <;> subst h <;> decide

/-- Characters are good when lowering fixes them and they are a word
character or a plain space; all characters of a normalized name are good. -/
def goodChar (c : Char) : Bool := (pyLower c == c) && (pWord c || c == ' ')

/-- Head of the list is not whitespace (or the list is empty). -/
def headOk : Str → Bool
  | [] => true
  | c :: _ => !pyWS c

/-- Last element of the list is not whitespace (or the list is empty). -/
def lastOk : Str → Bool
  | [] => true
  | c :: rest => if rest.isEmpty then !pyWS c else lastOk rest

/-- No two adjacent whitespace characters. -/
def noAdjSp : Str → Bool
  | [] => true
  | [_] => true
  | a :: b :: rest => !(pyWS a && pyWS b) && noAdjSp (b :: rest)

theorem andD {a b : Bool} (h : (a && b) = true) : a = true ∧ b = true := by
  cases a <;> cases b <;> simp_all

theorem andT {a b : Bool} (ha : a = true) (hb : b = true) : (a && b) = true := by
  rw [ha, hb]; rfl

theorem orD {a b : Bool} (h : (a || b) = true) : a = true ∨ b = true := by
  cases a <;> cases b <;> simp_all

theorem collapseGo_false_cons (c : Char) (rest : Str) :
    collapseGo false (c :: rest) =
      if pyWS c then ' ' :: collapseGo true rest else c :: collapseGo false rest := by
  cases h : pyWS c <;> simp [collapseGo, h]

theorem collapseGo_true_cons (c : Char) (rest : Str) :
    collapseGo true (c :: rest) =
      if pyWS c then collapseGo true rest else c :: collapseGo false rest := by
  cases h : pyWS c <;> simp [collapseGo, h]

theorem noAdjSp_cons (a : Char) (l : Str) :
    noAdjSp (a :: l) = ((match l.head? with
      | some b => !(pyWS a && pyWS b)
      | none => true) && noAdjSp l) := by
  cases l <;> simp [noAdjSp]

theorem lastOk_cons (c : Char) {l : Str} (h : l ≠ []) : lastOk (c :: l) = lastOk l := by
  cases l with
  | nil => exact absurd rfl h
  | cons d r => simp [lastOk]

theorem stripTail_expand (c : Char) (rest : Str) :
    stripTail (c :: rest) =
      if (stripTail rest).isEmpty && pyWS c then [] else c :: stripTail rest := rfl

theorem stripTail_mem {c : Char} : ∀ {l : Str}, c ∈ stripTail l → c ∈ l := by
  intro l
  induction l with
  | nil => simp [stripTail]
  | cons d rest ih =>
    rw [stripTail_expand]
    intro h
    by_cases hb : ((stripTail rest).isEmpty && pyWS d) = true
    · simp [hb] at h
    · rw [if_neg hb] at h
      rcases List.mem_cons.mp h with h | h
      · exact h ▸ List.mem_cons_self _ _
      · exact List.mem_cons_of_mem _ (ih h)

theorem dropWhile_mem {p : Char → Bool} {c : Char} {l : Str}
    (h : c ∈ l.dropWhile p) : c ∈ l :=
  (List.dropWhile_sublist p (l := l)).mem h

theorem strip_mem {c : Char} {l : Str} (h : c ∈ strip l) : c ∈ l :=
  dropWhile_mem (stripTail_mem h)

theorem collapseGo_mem {c : Char} : ∀ {f : Bool} {l : Str}, c ∈ collapseGo f l →
    (c ∈ l ∧ pyWS c = false) ∨ c = ' ' := by
  intro f l
  induction l generalizing f with
  | nil => cases f <;> simp [collapseGo]
  | cons d rest ih =>
    intro h
    by_cases hw : pyWS d
    · cases f with
      | true =>
        rw [collapseGo_true_cons, if_pos hw] at h
        rcases ih h with ⟨hm, hws⟩ | h
        · exact Or.inl ⟨List.mem_cons_of_mem _ hm, hws⟩
        · exact Or.inr h
      | false =>
        rw [collapseGo_false_cons, if_pos hw] at h
        rcases List.mem_cons.mp h with h | h
        · exact Or.inr h
        · rcases ih h with ⟨hm, hws⟩ | h
          · exact Or.inl ⟨List.mem_cons_of_mem _ hm, hws⟩
          · exact Or.inr h
    · have hrw : collapseGo f (d :: rest) = d :: collapseGo false rest := by
        cases f
        · rw [collapseGo_false_cons, if_neg hw]
        · rw [collapseGo_true_cons, if_neg hw]
      rw [hrw] at h
      rcases List.mem_cons.mp h with h | h
      · subst h
        exact Or.inl ⟨List.mem_cons_self _ _, by simpa using hw⟩
      · rcases ih h with ⟨hm, hws⟩ | h
        · exact Or.inl ⟨List.mem_cons_of_mem _ hm, hws⟩
        · exact Or.inr h

theorem headOk_collapseGo_true : ∀ {l : Str}, headOk (collapseGo true l) = true := by
  intro l
  induction l with
  | nil => rfl
  | cons c rest ih =>
    by_cases hw : pyWS c
    · rw [collapseGo_true_cons, if_pos hw]; exact ih
    · rw [collapseGo_true_cons, if_neg hw]
      simpa [headOk] using hw

theorem noAdjSp_collapseGo : ∀ {l : Str} (f : Bool), noAdjSp (collapseGo f l) = true := by
  intro l
  induction l with
  | nil => intro f; cases f <;> rfl
  | cons c rest ih =>
    intro f
    by_cases hw : pyWS c
    · cases f with
      | true => rw [collapseGo_true_cons, if_pos hw]; exact ih true
      | false =>
        rw [collapseGo_false_cons, if_pos hw, noAdjSp_cons]
        refine andT ?_ (ih true)
        cases hc : (collapseGo true rest).head? with
        | none => rfl
        | some b =>
          cases hl : collapseGo true rest with
          | nil => rw [hl] at hc; simp at hc
          | cons x xs =>
            rw [hl] at hc
            have hx : b = x := by
              simp only [List.head?] at hc
              exact (Option.some_inj.mp hc).symm
            subst hx
            have hho : headOk (collapseGo true rest) = true := headOk_collapseGo_true
            rw [hl] at hho
            have : pyWS b = false := by simpa [headOk] using hho
            simp [this]
    · have hrw : collapseGo f (c :: rest) = c :: collapseGo false rest := by
        cases f
        · rw [collapseGo_false_cons, if_neg hw]
        · rw [collapseGo_true_cons, if_neg hw]
      rw [hrw, noAdjSp_cons]
      refine andT ?_ (ih false)
      cases hc : (collapseGo false rest).head? with
      | none => rfl
      | some b => simp [hw]

theorem noAdjSp_append_left : ∀ {a b : Str}, noAdjSp (a ++ b) = true → noAdjSp a = true := by
  intro a b
  induction a with
  | nil => intro _; rfl
  | cons x as ih =>
    intro h
    rw [List.cons_append, noAdjSp_cons] at h
    rcases andD h with ⟨h1, h2⟩
    rw [noAdjSp_cons]
    refine andT ?_ (ih h2)
    cases as with
    | nil => rfl
    | cons y ys => simpa using h1

theorem noAdjSp_append_right : ∀ {a b : Str}, noAdjSp (a ++ b) = true → noAdjSp b = true := by
  intro a b
  induction a with
  | nil => intro h; simpa using h
  | cons x as ih =>
    intro h
    rw [List.cons_append, noAdjSp_cons] at h
    exact ih (andD h).2

theorem stripTail_prefix (l : Str) : ∃ t, l = stripTail l ++ t := by
  induction l with
  | nil => exact ⟨[], rfl⟩
  | cons c rest ih =>
    rw [stripTail_expand]
    by_cases hb : ((stripTail rest).isEmpty && pyWS c) = true
    · exact ⟨c :: rest, by rw [if_pos hb]; rfl⟩
    · rcases ih with ⟨t, ht⟩
      exact ⟨t, by rw [if_neg hb, List.cons_append, ← ht]⟩

theorem noAdjSp_stripTail {l : Str} (h : noAdjSp l = true) :
    noAdjSp (stripTail l) = true := by
  rcases stripTail_prefix l with ⟨t, ht⟩
  rw [ht] at h
  exact noAdjSp_append_left h

theorem noAdjSp_dropWhile {l : Str} (h : noAdjSp l = true) :
    noAdjSp (l.dropWhile pyWS) = true := by
  have := List.takeWhile_append_dropWhile (p := pyWS) (l := l)
  rw [← this] at h
  exact noAdjSp_append_right h

theorem noAdjSp_strip {l : Str} (h : noAdjSp l = true) : noAdjSp (strip l) = true :=
  noAdjSp_stripTail (noAdjSp_dropWhile h)

theorem headOk_dropWhile (l : Str) : headOk (l.dropWhile pyWS) = true := by
  induction l with
  | nil => rfl
  | cons c rest ih =>
    by_cases h : pyWS c
    · simpa [List.dropWhile, h] using ih
    · simp [List.dropWhile, h, headOk]

theorem headOk_stripTail {l : Str} (h : headOk l = true) : headOk (stripTail l) = true := by
  cases l with
  | nil => rfl
  | cons c rest =>
    rw [stripTail_expand]
    by_cases hb : ((stripTail rest).isEmpty && pyWS c) = true
    · rw [if_pos hb]; rfl
    · rw [if_neg hb]
      simpa [headOk] using h

theorem lastOk_stripTail (l : Str) : lastOk (stripTail l) = true := by
  induction l with
  | nil => rfl
  | cons c rest ih =>
    rw [stripTail_expand]
    by_cases hb : ((stripTail rest).isEmpty && pyWS c) = true
    · rw [if_pos hb]; rfl
    · rw [if_neg hb]
      by_cases he : (stripTail rest).isEmpty = true
      · have hw : pyWS c = false := by
          cases hw : pyWS c
          · rfl
          · exact absurd (by simp [he, hw]) hb
        have hnil : stripTail rest = [] := by simpa [List.isEmpty_iff] using he
        simp [hnil, lastOk, hw]
      · have hne : stripTail rest ≠ [] := by simpa [List.isEmpty_iff] using he
        rw [lastOk_cons c hne]
        exact ih

theorem headOk_strip (l : Str) : headOk (strip l) = true :=
  headOk_stripTail (headOk_dropWhile l)

theorem lastOk_strip (l : Str) : lastOk (strip l) = true :=
  lastOk_stripTail _

/-- The shape of fully normalized strings. -/
def normalizedForm (l : Str) : Prop :=
  (∀ c ∈ l, goodChar c = true) ∧ noAdjSp l = true ∧ headOk l = true ∧ lastOk l = true

theorem normalize_normalized (s : Str) : normalizedForm (normalizeName s) := by
  refine ⟨?_, ?_, headOk_strip _, lastOk_strip _⟩
  · intro c hc
    rcases collapseGo_mem (strip_mem hc) with ⟨hm, hw⟩ | hsp
    · rcases List.mem_filter.mp hm with ⟨hmap, hp⟩
      rcases List.mem_map.mp hmap with ⟨a, _, ha⟩
      have hlow : pyLower c = c := by rw [← ha]; exact pyLower_idem a
      have hword : pWord c = true := by
        rcases orD hp with h | h
        · exact h
        · exact absurd h (by simp [hw])
      simp [goodChar, hlow, hword]
    · subst hsp
      decide
  · exact noAdjSp_strip (noAdjSp_collapseGo false)

theorem dropWhile_eq_self {l : Str} (h : headOk l = true) : l.dropWhile pyWS = l := by
  cases l with
  | nil => rfl
  | cons c rest =>
    have : pyWS c = false := by simpa [headOk] using h
    simp [List.dropWhile, this]

theorem stripTail_eq_self : ∀ {l : Str}, lastOk l = true → stripTail l = l := by
  intro l
  induction l with
  | nil => intro _; rfl
  | cons c rest ih =>
    intro h
    by_cases he : rest = []
    · subst he
      have hw : pyWS c = false := by simpa [lastOk] using h
      rw [stripTail_expand]
      simp [stripTail, hw]
    · have h2 : lastOk rest = true := by rw [← lastOk_cons c he]; exact h
      have h3 : stripTail rest = rest := ih h2
      rw [stripTail_expand, h3]
      have : rest.isEmpty = false := by simpa [List.isEmpty_iff] using he
      simp [this]

theorem strip_eq_self {l : Str} (h1 : headOk l = true) (h2 : lastOk l = true) :
    strip l = l := by
  unfold strip
  rw [dropWhile_eq_self h1, stripTail_eq_self h2]

theorem map_pyLower_eq_self {l : Str} (h : ∀ c ∈ l, pyLower c = c) :
    lowerStr l = l := by
  induction l with
  | nil => rfl
  | cons c rest ih =>
    simp only [lowerStr, List.map_cons] at *
    rw [h c (List.mem_cons_self _ _), ih (fun d hd => h d (List.mem_cons_of_mem _ hd))]

theorem filter_eq_self_of {p : Char → Bool} {l : Str} (h : ∀ c ∈ l, p c = true) :
    l.filter p = l := by
  induction l with
  | nil => rfl
  | cons c rest ih =>
    simp only [List.filter, h c (List.mem_cons_self _ _)]
    rw [ih (fun d hd => h d (List.mem_cons_of_mem _ hd))]

theorem collapseGo_eq_self : ∀ {l : Str}, (∀ c ∈ l, goodChar c = true) →
    noAdjSp l = true →
    (collapseGo false l = l ∧ (headOk l = true → collapseGo true l = l)) := by
  intro l
  induction l with
  | nil => intro _ _; exact ⟨rfl, fun _ => rfl⟩
  | cons c rest ih =>
    intro hg hn
    rw [noAdjSp_cons] at hn
    rcases andD hn with ⟨h1, h2⟩
    rcases ih (fun d hd => hg d (List.mem_cons_of_mem _ hd)) h2 with ⟨ihf, iht⟩
    by_cases hw : pyWS c
    · have hcsp : c = ' ' := by
        have := hg c (List.mem_cons_self _ _)
        simp only [goodChar, Bool.and_eq_true, Bool.or_eq_true, beq_iff_eq] at this
        rcases this.2 with h | h
        · exact absurd h (by simp [pyWS_not_pWord hw])
        · exact h
      have hrest : headOk rest = true := by
        cases rest with
        | nil => rfl
        | cons d rs =>
          have hd : pyWS d = false := by
            cases hd : pyWS d
            · rfl
            · simp [hw, hd] at h1
          simp [headOk, hd]
      constructor
      · rw [collapseGo_false_cons, if_pos hw, iht hrest, hcsp]
      · intro hho
        exact absurd (by simpa [headOk] using hho) (by simp [hw])
    · constructor
      · rw [collapseGo_false_cons, if_neg hw, ihf]
      · intro _
        rw [collapseGo_true_cons, if_neg hw, ihf]

theorem collapseWS_eq_self {l : Str} (hg : ∀ c ∈ l, goodChar c = true)
    (hn : noAdjSp l = true) : collapseWS l = l :=
  (collapseGo_eq_self hg hn).1

theorem normalize_fix {l : Str} (h : normalizedForm l) : normalizeName l = l := by
  rcases h with ⟨hg, hn, hh, hl⟩
  have hlow : ∀ c ∈ l, pyLower c = c := by
    intro c hc
    have := hg c hc
    simp only [goodChar, Bool.and_eq_true, beq_iff_eq] at this
    exact this.1
  have hfil : ∀ c ∈ l, (pWord c || pyWS c) = true := by
    intro c hc
    have := hg c hc
    simp only [goodChar, Bool.and_eq_true, Bool.or_eq_true, beq_iff_eq] at this
    rcases this.2 with h | h
    · simp [h]
    · subst h; simp [pyWS]
  unfold normalizeName
  rw [strip_eq_self hh hl, map_pyLower_eq_self hlow, filter_eq_self_of hfil,
    collapseWS_eq_self hg hn, strip_eq_self hh hl]

end NormalizeLemmas

/-- C8: name normalization is idempotent. For every input string x,
`normalize_name(normalize_name(x)) == normalize_name(x)`
(`network_builder.normalize_name`). -/
theorem C8_normalize_idempotent (s : Str) :
    normalizeName (normalizeName s) = normalizeName s :=
  normalize_fix (normalize_normalized s)

/-- C7: an input whose normalized form equals exactly the last-name token of
a primary participant's multi-token normalized name, and which is not an
exact primary name or a curated alias of any participant, is rejected by
`match_primary` (returns None): last-name-only partial matches are refused. -/
theorem C7_last_name_rejected (s : Str)
    (htok : normalizeName s ∈ lastNameTokens)
    (hexact : ∀ p ∈ PRIMARY_PEOPLE, normalizeName p.name.data ≠ normalizeName s)
    (halias : ∀ pa ∈ NAME_ALIASES, ∀ a ∈ pa.2,
      normalizeName s ≠ a.data ∧ normalizeName s ≠ normalizeName a.data) :
    matchPrimary s = none := by
  have hl : lastNameTokens =
      [str "peters", str "wood", str "woods", str "bishop", str "brown",
       str "knisley", str "quinn", str "quinn", str "hayes"] := by decide
  rw [hl] at htok
  unfold matchPrimary
  simp only [List.mem_cons, List.not_mem_nil, or_false] at htok
  rcases htok with h | h | h | h | h | h | h | h | h <;> rw [h] <;> decide

/-- Witness for C7 at the concrete input "Peters". -/
theorem C7_last_name_rejected_witness :
    normalizeName (str "Peters") ∈ lastNameTokens ∧ matchPrimary (str "Peters") = none :=
  ⟨by decide, C7_last_name_rejected (str "Peters") (by decide) (by decide) (by decide)⟩

/-! ### Chat line parser (`data_loader.parse_chats` / `parse_chat_threads`)

The two parsers share one message-line rule,
`^- \[(\d{4}-\d{2}-\d{2}T[^\]]+)\] \*\*([^*]*)\*\*: (.+)`, followed by the
trailing-parenthesis source extraction. The regex is deterministic: the
character classes `[^\]]+` and `[^*]*` stop at the first excluded character
and `(.+)` runs to the end of the line (stopping at a newline). -/

/-- Parsed chat message record
(`{"timestamp": ..., "sender": ..., "body": ..., "source": ...}`). -/
structure ChatMsg where
  timestamp : Str
  sender : Str
  body : Str
  source : Str
deriving DecidableEq, Repr

/-- Match a literal pattern at the start of the input, returning the rest. -/
def expectPref : Str → Str → Option Str
  | [], l => some l
  | _ :: _, [] => none
  | c :: ps, d :: l => if d == c then expectPref ps l else none

/-- Match exactly `n` digits (`\d{n}`). -/
def takeDigits : Nat → Str → Option (Str × Str)
  | 0, l => some ([], l)
  | _ + 1, [] => none
  | n + 1, c :: rest =>
    if c.isDigit then
      match takeDigits n rest with
      | some (ds, r) => some (c :: ds, r)
      | none => none
    else none

/-- Index of the last occurrence of a character (Python `str.rfind`,
`none` standing for -1). -/
def rlastIdx : Str → Char → Option Nat
  | [], _ => none
  | c :: rest, t =>
    match rlastIdx rest t with
    | some i => some (i + 1)
    | none => if c == t then some 0 else none

/-- Python `str.endswith` for a single character. -/
def lastIs (l : Str) (c : Char) : Bool :=
  match l.getLast? with
  | some d => d == c
  | none => false

/-- Match `\d{4}-\d{2}-\d{2}T[^\]]+\] `, returning the timestamp group and
the rest after the literal `] `. -/
def parseTsPart (l : Str) : Option (Str × Str) :=
  (takeDigits 4 l).bind fun p1 =>
  (expectPref [ '-' ] p1.2).bind fun r2 =>
  (takeDigits 2 r2).bind fun p2 =>
  (expectPref [ '-' ] p2.2).bind fun r4 =>
  (takeDigits 2 r4).bind fun p3 =>
  (expectPref [ 'T' ] p3.2).bind fun r6 =>
  if (r6.takeWhile (fun c => c != ']')).isEmpty then none
  else
    (expectPref (str "] ") (r6.dropWhile (fun c => c != ']'))).bind fun r7 =>
    some (p1.1 ++ '-' :: p2.1 ++ '-' :: p3.1 ++ 'T' :: r6.takeWhile (fun c => c != ']'), r7)

/-- Trailing-parenthesis source extraction: `idx = body.rfind('(')`; when
`idx > 0` and the body ends with `)`, the slice `body[idx+1:-1]` becomes the
source and `body[:idx].strip()` the body. -/
def mkChatMsg (ts sender b : Str) : ChatMsg :=
  match rlastIdx b '(' with
  | some idx =>
    if 0 < idx ∧ lastIs b ')' = true then
      ⟨ts, sender, strip (b.take idx), (b.drop (idx + 1)).dropLast⟩
    else ⟨ts, sender, b, []⟩
  | none => ⟨ts, sender, b, []⟩

/-- Parse one chat line (the shared message rule of `parse_chats` and
`parse_chat_threads`). -/
def parseChatLine (line : Str) : Option ChatMsg :=
  (expectPref (str "- [") line).bind fun r1 =>
  (parseTsPart r1).bind fun p =>
  (expectPref (str "**") p.2).bind fun r3 =>
  (expectPref (str "**: ") (r3.dropWhile (fun c => c != '*'))).bind fun r4 =>
  if (r4.takeWhile (fun c => c != '\n')).isEmpty then none
  else some (mkChatMsg p.1 (r3.takeWhile (fun c => c != '*'))
    (strip (r4.takeWhile (fun c => c != '\n'))))

/-- `data_loader.parse_chats` over the lines of the file. -/
def parseChats (lines : List Str) : List ChatMsg := lines.filterMap parseChatLine

/-- Re-serialization of a parsed record in the round-trip format
`- [timestamp] **sender**: body (source)`. -/
def serializeChat (m : ChatMsg) : Str :=
  str "- [" ++ m.timestamp ++ str "] **" ++ m.sender ++ str "**: " ++
    m.body ++ str " (" ++ m.source ++ [')']

section ChatRoundTrip

theorem obind_some {α β : Type} (a : α) (f : α → Option β) : (some a).bind f = f a := rfl

theorem bne_to_beq {a b : Char} (h : (a != b) = true) : (a == b) = false := by
  cases hx : a == b
  · rfl
  · rw [bne, hx] at h; simp at h

theorem beq_to_bne {a b : Char} (h : (a == b) = false) : (a != b) = true := by
  rw [bne, h]; rfl

theorem expectPref_inv : ∀ {p l r : Str}, expectPref p l = some r → l = p ++ r := by
  intro p
  induction p with
  | nil => intro l r h; simpa [expectPref] using h
  | cons c ps ih =>
    intro l r h
    cases l with
    | nil => simp [expectPref] at h
    | cons d l2 =>
      simp only [expectPref] at h
      by_cases hd : (d == c) = true
      · rw [if_pos hd] at h
        have := ih h
        rw [List.cons_append, ← this, beq_iff_eq.mp hd]
      · rw [if_neg hd] at h; simp at h

theorem expectPref_app (p r : Str) : expectPref p (p ++ r) = some r := by
  induction p with
  | nil => rfl
  | cons c ps ih => simp [expectPref, ih]

theorem takeDigits_inv : ∀ {n : Nat} {l ds r : Str}, takeDigits n l = some (ds, r) →
    l = ds ++ r ∧ ds.length = n ∧ ∀ c ∈ ds, c.isDigit = true := by
  intro n
  induction n with
  | zero =>
    intro l ds r h
    simp only [takeDigits, Option.some_inj, Prod.mk.injEq] at h
    rcases h with ⟨h1, h2⟩
    subst h1; subst h2
    exact ⟨rfl, rfl, by simp⟩
  | succ k ih =>
    intro l ds r h
    cases l with
    | nil => simp [takeDigits] at h
    | cons c rest =>
      simp only [takeDigits] at h
      by_cases hd : c.isDigit = true
      · rw [if_pos hd] at h
        cases htd : takeDigits k rest with
        | none => rw [htd] at h; simp at h
        | some p =>
          rw [htd] at h
          obtain ⟨ds2, r2⟩ := p
          simp only [Option.some_inj, Prod.mk.injEq] at h
          rcases h with ⟨h1, h2⟩
          subst h2
          rcases ih htd with ⟨ha, hb, hc⟩
          subst h1
          refine ⟨by rw [List.cons_append, ha], by simp [hb], ?_⟩
          intro x hx
          rcases List.mem_cons.mp hx with hx | hx

          · exact hx ▸ hd
          · exact hc x hx
      · rw [if_neg hd] at h; simp at h

theorem takeDigits_app : ∀ {ds : Str} {n : Nat} (r : Str), ds.length = n →
    (∀ c ∈ ds, c.isDigit = true) → takeDigits n (ds ++ r) = some (ds, r) := by
  intro ds
  induction ds with
  | nil =>
    intro n r hlen _
    subst hlen
    rfl
  | cons c ds2 ih =>
    intro n r hlen hd
    subst hlen
    rw [List.length_cons, List.cons_append]
    show (if c.isDigit = true then
        match takeDigits ds2.length (ds2 ++ r) with
        | some (ds, r2) => some (c :: ds, r2)
        | none => none
      else none) = some (c :: ds2, r)
    rw [if_pos (hd c (List.mem_cons_self _ _)),
      ih r rfl (fun x hx => hd x (List.mem_cons_of_mem _ hx))]

theorem takeWhile_app {p : Char → Bool} : ∀ (a : Str) (x : Char) (r : Str),
    (∀ c ∈ a, p c = true) → p x = false →
    (a ++ x :: r).takeWhile p = a ∧ (a ++ x :: r).dropWhile p = x :: r := by
  intro a
  induction a with
  | nil =>
    intro x r _ hx
    constructor
    · simp [List.takeWhile, hx]
    · simp [List.dropWhile, hx]
  | cons c a2 ih =>
    intro x r ha hx
    have hc : p c = true := ha c (List.mem_cons_self _ _)
    rcases ih x r (fun d hd => ha d (List.mem_cons_of_mem _ hd)) hx with ⟨h1, h2⟩
    constructor
    · rw [List.cons_append, List.takeWhile_cons, if_pos hc, h1]
    · rw [List.cons_append, List.dropWhile_cons, if_pos hc, h2]

theorem takeWhile_all {p : Char → Bool} : ∀ {l : Str},
    (∀ c ∈ l, p c = true) → l.takeWhile p = l := by
  intro l
  induction l with
  | nil => intro _; rfl
  | cons c l2 ih =>
    intro h
    simp only [List.takeWhile, h c (List.mem_cons_self _ _)]
    rw [ih (fun d hd => h d (List.mem_cons_of_mem _ hd))]

theorem rlastIdx_cons (c : Char) (rest : Str) (t : Char) :
    rlastIdx (c :: rest) t =
      match rlastIdx rest t with
      | some i => some (i + 1)
      | none => if c == t then some 0 else none := rfl

theorem rlastIdx_none_of : ∀ {l : Str} {t : Char}, t ∉ l → rlastIdx l t = none := by
  intro l t
  induction l with
  | nil => intro _; rfl
  | cons c rest ih =>
    intro h
    have h1 : t ∉ rest := fun hm => h (List.mem_cons_of_mem _ hm)
    have h2 : (c == t) = false := by
      cases hx : c == t
      · rfl
      · exact absurd (List.mem_cons_self c rest) ((beq_iff_eq.mp hx).symm ▸ h)
    simp only [rlastIdx, ih h1, h2, Bool.false_eq_true, if_false]

theorem not_mem_of_rlastIdx_none : ∀ {l : Str} {t : Char}, rlastIdx l t = none → t ∉ l := by
  intro l t
  induction l with
  | nil => intro _; simp
  | cons c rest ih =>
    intro h
    simp only [rlastIdx] at h
    cases hr : rlastIdx rest t with
    | some i => rw [hr] at h; simp at h
    | none =>
      rw [hr] at h
      by_cases hc : (c == t) = true
      · rw [if_pos hc] at h; simp at h
      · intro hm
        rcases List.mem_cons.mp hm with hm | hm
        · exact hc (by rw [hm]; exact beq_self_eq_true c)
        · exact ih hr hm

theorem rlastIdx_inv : ∀ {l : Str} {t : Char} {i : Nat}, rlastIdx l t = some i →
    ∃ pre post, l = pre ++ t :: post ∧ pre.length = i ∧ t ∉ post := by
  intro l t
  induction l with
  | nil => intro i h; simp [rlastIdx] at h
  | cons c rest ih =>
    intro i h
    simp only [rlastIdx] at h
    cases hr : rlastIdx rest t with
    | some j =>
      rw [hr] at h
      simp only [Option.some_inj] at h
      rcases ih hr with ⟨pre, post, hdec, hlen, hnot⟩
      exact ⟨c :: pre, post, by rw [List.cons_append, hdec],
        by simp [hlen, h], hnot⟩
    | none =>
      rw [hr] at h
      by_cases hc : (c == t) = true
      · rw [if_pos hc] at h
        simp only [Option.some_inj] at h
        exact ⟨[], rest, by rw [beq_iff_eq.mp hc]; rfl, by simp [h], not_mem_of_rlastIdx_none hr⟩
      · rw [if_neg hc] at h; simp at h

theorem rlastIdx_app {t : Char} : ∀ (pre : Str) {post : Str}, t ∉ post →
    rlastIdx (pre ++ t :: post) t = some pre.length := by
  intro pre
  induction pre with
  | nil =>
    intro post h
    simp only [List.nil_append, rlastIdx, rlastIdx_none_of h, beq_self_eq_true, if_true]
    rfl
  | cons c pre2 ih =>
    intro post h
    rw [List.cons_append, rlastIdx_cons, ih h, List.length_cons]

theorem strip_cons_of {c : Char} {rest : Str} (h : pyWS c = false) :
    strip (c :: rest) = c :: stripTail rest := by
  unfold strip
  rw [show (c :: rest).dropWhile pyWS = c :: rest by simp [List.dropWhile, h]]
  rw [stripTail_expand]
  simp [h]

theorem stripTail_app_ws {c : Char} (h : pyWS c = true) :
    ∀ (l : Str), stripTail (l ++ [c]) = stripTail l := by
  intro l
  induction l with
  | nil => simp [stripTail, h]
  | cons x l2 ih =>
    rw [List.cons_append, stripTail_expand, stripTail_expand, ih]

theorem lastOk_concat (l : Str) (c : Char) : lastOk (l ++ [c]) = !pyWS c := by
  induction l with
  | nil => simp [lastOk]
  | cons x l2 ih =>
    rw [List.cons_append, lastOk_cons x (by simp), ih]

/-- Shape of a timestamp group matched by `\d{4}-\d{2}-\d{2}T[^\]]+`. -/
def tsShape (ts : Str) : Prop :=
  ∃ d1 d2 d3 tail : Str, ts = d1 ++ '-' :: d2 ++ '-' :: d3 ++ 'T' :: tail ∧
    d1.length = 4 ∧ d2.length = 2 ∧ d3.length = 2 ∧
    (∀ c ∈ d1, c.isDigit = true) ∧ (∀ c ∈ d2, c.isDigit = true) ∧
    (∀ c ∈ d3, c.isDigit = true) ∧ tail ≠ [] ∧ (∀ c ∈ tail, (c == ']') = false)

theorem parseTsPart_inv {l ts rest : Str} (h : parseTsPart l = some (ts, rest)) :
    tsShape ts := by
  unfold parseTsPart at h
  simp only [Option.bind_eq_some] at h
  obtain ⟨⟨d1, r1⟩, h1, h⟩ := h
  obtain ⟨r2, h2, h⟩ := h
  obtain ⟨⟨d2, r3⟩, h3, h⟩ := h
  obtain ⟨r4, h4, h⟩ := h
  obtain ⟨⟨d3, r5⟩, h5, h⟩ := h
  obtain ⟨r6, h6, h⟩ := h
  by_cases he : (r6.takeWhile (fun c => c != ']')).isEmpty = true
  · rw [if_pos he] at h; simp at h
  · rw [if_neg he] at h
    simp only [Option.bind_eq_some] at h
    obtain ⟨r7, h7, h⟩ := h
    simp only [Option.some_inj, Prod.mk.injEq] at h
    rcases h with ⟨hts, _⟩
    rcases takeDigits_inv h1 with ⟨_, hl1, hd1⟩
    rcases takeDigits_inv h3 with ⟨_, hl2, hd2⟩
    rcases takeDigits_inv h5 with ⟨_, hl3, hd3⟩
    refine ⟨d1, d2, d3, r6.takeWhile (fun c => c != ']'), hts.symm, hl1, hl2, hl3,
      hd1, hd2, hd3, by simpa [List.isEmpty_iff] using he, ?_⟩
    intro c hc
    exact bne_to_beq (List.mem_takeWhile_imp (p := fun c => c != ']') (l := r6) hc)

theorem parseTsPart_run {ts R : Str} (h : tsShape ts) :
    parseTsPart (ts ++ ']' :: ' ' :: R) = some (ts, R) := by
  obtain ⟨d1, d2, d3, tail, hts, hl1, hl2, hl3, hd1, hd2, hd3, htne, htc⟩ := h
  have htail : ∀ c ∈ tail, (fun c => c != ']') c = true := fun c hc => beq_to_bne (htc c hc)
  have hsplit := takeWhile_app (p := fun c => c != ']') tail ']' (' ' :: R) htail (by simp)
  have hne : tail.isEmpty = false := by
    cases tail
    · exact absurd rfl htne
    · rfl
  subst hts
  unfold parseTsPart
  rw [show (d1 ++ '-' :: d2 ++ '-' :: d3 ++ 'T' :: tail) ++ ']' :: ' ' :: R =
      d1 ++ ([ '-' ] ++ (d2 ++ ([ '-' ] ++ (d3 ++ ([ 'T' ] ++ (tail ++ ']' :: ' ' :: R))))))
    by simp]
  rw [takeDigits_app _ hl1 hd1]
  simp only [obind_some]
  rw [expectPref_app]
  simp only [obind_some]
  rw [takeDigits_app _ hl2 hd2]
  simp only [obind_some]
  rw [expectPref_app]
  simp only [obind_some]
  rw [takeDigits_app _ hl3 hd3]
  simp only [obind_some]
  rw [expectPref_app]
  simp only [obind_some]
  rw [hsplit.1, hsplit.2]
  rw [if_neg (by simp [hne])]
  rw [show (']' :: ' ' :: R : Str) = str "] " ++ R from rfl, expectPref_app]
  simp only [obind_some]

theorem mkChatMsg_inv {ts sender b : Str} {m : ChatMsg}
    (h : mkChatMsg ts sender b = m) (hs : m.source ≠ []) :
    ∃ pre post, b = pre ++ '(' :: post ∧ 0 < pre.length ∧ '(' ∉ post ∧
      lastIs b ')' = true ∧
      m = ⟨ts, sender, strip (b.take pre.length), post.dropLast⟩ := by
  unfold mkChatMsg at h
  split at h
  next idx hr =>
    split at h
    next hcond =>
      rcases hcond with ⟨hpos, hlast⟩
      rcases rlastIdx_inv hr with ⟨pre, post, hdec, hlen, hnot⟩
      have hdrop : b.drop (idx + 1) = post := by
        rw [hdec, ← hlen,
          show pre ++ '(' :: post = (pre ++ [ '(' ]) ++ post by simp,
          show pre.length + 1 = (pre ++ [ '(' ]).length by simp]
        exact List.drop_left _ _
      refine ⟨pre, post, hdec, by rw [hlen]; exact hpos, hnot, hlast, ?_⟩
      rw [← h, hlen, hdrop]
    next hcond =>
      rw [← h] at hs
      simp at hs
  next hr =>
    rw [← h] at hs
    simp at hs

theorem parseChatLine_facts {line : Str} {m : ChatMsg}
    (h : parseChatLine line = some m) (hs : m.source ≠ []) :
    tsShape m.timestamp ∧ (∀ c ∈ m.sender, (c == '*') = false) ∧
    m.body ≠ [] ∧ headOk m.body = true ∧ lastOk m.body = true ∧
    '(' ∉ m.source ∧ (∀ c ∈ m.body, (c == '\n') = false) ∧
    (∀ c ∈ m.source, (c == '\n') = false) := by
  unfold parseChatLine at h
  simp only [Option.bind_eq_some] at h
  obtain ⟨r1, h1, h⟩ := h
  obtain ⟨⟨ts, r2⟩, h2, h⟩ := h
  obtain ⟨r3, h3, h⟩ := h
  obtain ⟨r4, h4, h⟩ := h
  split at h
  · simp at h
  next hbe =>
    have hmk : mkChatMsg ts (r3.takeWhile (fun c => c != '*'))
        (strip (r4.takeWhile (fun c => c != '\n'))) = m := Option.some_inj.mp h
    obtain ⟨pre, post, hdec, hpos, hnot, hlast, hm⟩ := mkChatMsg_inv hmk hs
    have htake : (strip (r4.takeWhile (fun c => c != '\n'))).take pre.length = pre := by
      rw [hdec]
      exact List.take_left _ _
    obtain ⟨p0, pt, hpre⟩ : ∃ p0 pt, pre = p0 :: pt := by
      cases hp : pre with
      | nil => rw [hp] at hpos; simp at hpos
      | cons p0 pt => exact ⟨p0, pt, rfl⟩
    have hmemb : ∀ c ∈ pre, c ∈ r4.takeWhile (fun c => c != '\n') := by
      intro c hc
      apply strip_mem
      rw [hdec]
      exact List.mem_append_left _ hc
    have hmemp : ∀ c ∈ post, c ∈ r4.takeWhile (fun c => c != '\n') := by
      intro c hc
      apply strip_mem
      rw [hdec]
      exact List.mem_append_right _ (List.mem_cons_of_mem _ hc)
    have hp0 : pyWS p0 = false := by
      have hho : headOk (strip (r4.takeWhile (fun c => c != '\n'))) = true := headOk_strip _
      rw [hdec, hpre] at hho
      simpa [headOk] using hho
    have hbody : m.body = strip pre := by rw [hm, htake]
    have hsrc : m.source = post.dropLast := by rw [hm]
    refine ⟨?_, ?_, ?_, ?_, ?_, ?_, ?_, ?_⟩
    · rw [hm]
      exact parseTsPart_inv h2
    · rw [hm]
      intro c hc
      exact bne_to_beq (List.mem_takeWhile_imp (p := fun c => c != '*') (l := r3) hc)
    · rw [hbody, hpre, strip_cons_of hp0]
      simp
    · rw [hbody]
      exact headOk_strip _
    · rw [hbody]
      exact lastOk_strip _
    · rw [hsrc]
      intro hc
      exact hnot ((List.dropLast_sublist post).mem hc)
    · rw [hbody]
      intro c hc
      exact bne_to_beq (List.mem_takeWhile_imp (p := fun c => c != '\n') (l := r4)
        (hmemb c (strip_mem hc)))
    · rw [hsrc]
      intro c hc
      exact bne_to_beq (List.mem_takeWhile_imp (p := fun c => c != '\n') (l := r4)
        (hmemp c ((List.dropLast_sublist post).mem hc)))

theorem mkChatMsg_run {ts sender body source : Str}
    (hbody : body ≠ []) (hhead : headOk body = true) (hlast : lastOk body = true)
    (hsrc : '(' ∉ source) :
    mkChatMsg ts sender (body ++ ' ' :: '(' :: (source ++ [')'])) =
      ⟨ts, sender, body, source⟩ := by
  obtain ⟨bh, bt, hb⟩ : ∃ bh bt, body = bh :: bt := by
    cases hp : body with
    | nil => exact absurd hp hbody
    | cons bh bt => exact ⟨bh, bt, rfl⟩
  have hbh : pyWS bh = false := by rw [hb] at hhead; simpa [headOk] using hhead
  have hnot : '(' ∉ (source ++ [')']) := by
    intro hm
    rcases List.mem_append.mp hm with hm | hm
    · exact hsrc hm
    · simp at hm
  have hr : rlastIdx (body ++ ' ' :: '(' :: (source ++ [')'])) '(' =
      some (body ++ [' ']).length := by
    rw [show body ++ ' ' :: '(' :: (source ++ [')']) =
      (body ++ [' ']) ++ '(' :: (source ++ [')']) by simp]
    exact rlastIdx_app _ hnot
  have hli : lastIs (body ++ ' ' :: '(' :: (source ++ [')'])) ')' = true := by
    rw [show body ++ ' ' :: '(' :: (source ++ [')']) =
      (body ++ ' ' :: '(' :: source) ++ [')'] by simp]
    unfold lastIs
    rw [List.getLast?_concat]
    rfl
  have htk : (body ++ ' ' :: '(' :: (source ++ [')'])).take (body ++ [' ']).length =
      body ++ [' '] := by
    rw [show body ++ ' ' :: '(' :: (source ++ [')']) =
      (body ++ [' ']) ++ '(' :: (source ++ [')']) by simp]
    exact List.take_left _ _
  have hstrip : strip (body ++ [' ']) = body := by
    unfold strip
    have hho : headOk (body ++ [' ']) = true := by
      rw [hb, List.cons_append]
      simpa [headOk] using hbh
    rw [dropWhile_eq_self hho, stripTail_app_ws (by decide) body, stripTail_eq_self hlast]
  have hdr : (body ++ ' ' :: '(' :: (source ++ [')'])).drop ((body ++ [' ']).length + 1) =
      source ++ [')'] := by
    rw [show body ++ ' ' :: '(' :: (source ++ [')']) =
      ((body ++ [' ']) ++ [ '(' ]) ++ (source ++ [')']) by simp]
    rw [show (body ++ [' ']).length + 1 = ((body ++ [' ']) ++ [ '(' ]).length by simp]
    exact List.drop_left _ _
  unfold mkChatMsg
  rw [hr]
  show (if 0 < (body ++ [' ']).length ∧
      lastIs (body ++ ' ' :: '(' :: (source ++ [')'])) ')' = true then
    (⟨ts, sender, strip ((body ++ ' ' :: '(' :: (source ++ [')'])).take (body ++ [' ']).length),
      ((body ++ ' ' :: '(' :: (source ++ [')'])).drop ((body ++ [' ']).length + 1)).dropLast⟩ :
        ChatMsg)
    else ⟨ts, sender, body ++ ' ' :: '(' :: (source ++ [')']), []⟩) = ⟨ts, sender, body, source⟩
  rw [if_pos ⟨by simp, hli⟩, htk, hstrip, hdr, List.dropLast_concat]

/-- C6: chat line round-trip. For every line matching the chat grammar whose
parsed record has a non-empty source, re-serializing the record as
`- [timestamp] **sender**: body (source)` and re-parsing yields the same
record (`data_loader.parse_chats` line rule). -/
theorem C6_chat_roundtrip (line : Str) (m : ChatMsg)
    (h : parseChatLine line = some m) (hs : m.source ≠ []) :
    parseChatLine (serializeChat m) = some m := by
  obtain ⟨hts, hsender, hbne, hbhead, hblast, hsrcpar, hbnl, hsnl⟩ := parseChatLine_facts h hs
  obtain ⟨mts, msd, mb, msrc⟩ := m
  simp only at hts hsender hbne hbhead hblast hsrcpar hbnl hsnl
  have hser : serializeChat ⟨mts, msd, mb, msrc⟩ =
      str "- [" ++ (mts ++ ']' :: ' ' :: (str "**" ++ (msd ++ '*' :: '*' :: ':' :: ' ' ::
        (mb ++ ' ' :: '(' :: (msrc ++ [')']))))) := by
    show str "- [" ++ mts ++ str "] **" ++ msd ++ str "**: " ++ mb ++ str " (" ++ msrc ++ [')'] = _
    rw [show str "] **" = [']', ' ', '*', '*'] from rfl,
      show str "**" = ['*', '*'] from rfl,
      show str "**: " = ['*', '*', ':', ' '] from rfl,
      show str " (" = [' ', '('] from rfl]
    simp [List.append_assoc]
  rw [hser]
  unfold parseChatLine
  rw [expectPref_app]
  simp only [obind_some]
  rw [parseTsPart_run hts]
  simp only [obind_some]
  rw [expectPref_app]
  simp only [obind_some]
  have hsplitS := takeWhile_app (p := fun c => c != '*') msd '*'
    ('*' :: ':' :: ' ' :: (mb ++ ' ' :: '(' :: (msrc ++ [')'])))
    (fun c hc => beq_to_bne (hsender c hc)) (by simp)
  rw [show (msd ++ '*' :: '*' :: ':' :: ' ' :: (mb ++ ' ' :: '(' :: (msrc ++ [')'])) : Str) =
    msd ++ '*' :: ('*' :: ':' :: ' ' :: (mb ++ ' ' :: '(' :: (msrc ++ [')']))) from rfl]
  rw [hsplitS.1, hsplitS.2]
  rw [show ('*' :: '*' :: ':' :: ' ' :: (mb ++ ' ' :: '(' :: (msrc ++ [')'])) : Str) =
    str "**: " ++ (mb ++ ' ' :: '(' :: (msrc ++ [')'])) from rfl]
  rw [expectPref_app]
  simp only [obind_some]
  have hBall : ∀ c ∈ (mb ++ ' ' :: '(' :: (msrc ++ [')'])),
      (fun c => c != '\n') c = true := by
    intro c hc
    rcases List.mem_append.mp hc with hc | hc
    · exact beq_to_bne (hbnl c hc)
    · rcases List.mem_cons.mp hc with hc | hc
      · subst hc; decide
      · rcases List.mem_cons.mp hc with hc | hc
        · subst hc; decide
        · rcases List.mem_append.mp hc with hc | hc
          · exact beq_to_bne (hsnl c hc)
          · rcases List.mem_singleton.mp hc with hc
            subst hc; decide
  rw [takeWhile_all hBall]
  obtain ⟨bh, bt, hb⟩ : ∃ bh bt, mb = bh :: bt := by
    cases hp : mb with
    | nil => exact absurd hp hbne
    | cons bh bt => exact ⟨bh, bt, rfl⟩
  have hne : (mb ++ ' ' :: '(' :: (msrc ++ [')'])).isEmpty = false := by
    rw [hb, List.cons_append]
    rfl
  rw [if_neg (by simp [hne])]
  have hstripB : strip (mb ++ ' ' :: '(' :: (msrc ++ [')'])) =
      mb ++ ' ' :: '(' :: (msrc ++ [')']) := by
    apply strip_eq_self
    · rw [hb, List.cons_append]
      rw [hb] at hbhead
      simpa [headOk] using hbhead
    · rw [show mb ++ ' ' :: '(' :: (msrc ++ [')']) =
        (mb ++ ' ' :: '(' :: msrc) ++ [')'] by simp]
      rw [lastOk_concat]
      decide
  rw [hstripB, mkChatMsg_run hbne hbhead hblast hsrcpar]

end ChatRoundTrip

/-- Witness for C6 at one concrete chat line. -/
theorem C6_chat_roundtrip_witness :
    parseChatLine (str "- [2021-08-06T21:07:24+00:00] **Wendi**: Added to MCUA group (Signal)") =
      some ⟨str "2021-08-06T21:07:24+00:00", str "Wendi", str "Added to MCUA group",
        str "Signal"⟩ ∧
    parseChatLine (serializeChat ⟨str "2021-08-06T21:07:24+00:00", str "Wendi",
        str "Added to MCUA group", str "Signal"⟩) =
      some ⟨str "2021-08-06T21:07:24+00:00", str "Wendi", str "Added to MCUA group",
        str "Signal"⟩ :=
  ⟨by decide,
   C6_chat_roundtrip
     (str "- [2021-08-06T21:07:24+00:00] **Wendi**: Added to MCUA group (Signal)")
     ⟨str "2021-08-06T21:07:24+00:00", str "Wendi", str "Added to MCUA group", str "Signal"⟩
     (by decide) (by decide)⟩

/-! ### Thread parser (`data_loader.parse_chat_threads`) -/

/-- In-progress thread state of `parse_chat_threads`. Python keeps
participants in a `set`; the model keeps them as a duplicate-free list in
first-insertion order (no claim depends on participant order). -/
structure ThreadB where
  threadId : Nat
  source : Str
  started : Str
  messages : List ChatMsg
  participants : List Str
deriving DecidableEq, Repr

/-- Thread summary (plus its message list, standing for the
`thread_id -> messages` map that `parse_chat_threads` returns alongside). -/
structure ThreadOut where
  threadId : Nat
  source : Str
  participants : List Str
  messageCount : Nat
  firstDate : Str
  lastDate : Str
  lastPreview : Str
  messages : List ChatMsg
deriving DecidableEq, Repr

/-- Python `set.add`. -/
def setAdd (s : List Str) (x : Str) : List Str := if x ∈ s then s else s ++ [x]

/-- Match `^### Chat: (.+)`. -/
def headerMatch (line : Str) : Option Str :=
  (expectPref (str "### Chat: ") line).bind fun r =>
  if (r.takeWhile (fun c => c != '\n')).isEmpty then none
  else some (r.takeWhile (fun c => c != '\n'))

/-- Match `^\*\*Started:\*\* (.+)`. -/
def startedMatch (line : Str) : Option Str :=
  (expectPref (str "**Started:** ") line).bind fun r =>
  if (r.takeWhile (fun c => c != '\n')).isEmpty then none
  else some (r.takeWhile (fun c => c != '\n'))

/-- Emit the current thread if it has messages (`if current_thread and
current_thread['messages']: threads.append(current_thread)`). -/
def flushThread : Option ThreadB → List ThreadB
  | some t => if t.messages.isEmpty then [] else [t]
  | none => []

/-- The line loop of `parse_chat_threads`: a `### Chat:` header flushes the
current thread and opens a new one; a `**Started:**` line (only when a
thread is open) sets its start date; a message line is appended to the open
thread, opening an implicit thread named after the message's source tag
when none is open; all other lines are skipped. -/
def threadsLoop : Option ThreadB → Nat → List Str → List ThreadB
  | cur, _, [] => flushThread cur
  | cur, tid, line :: rest =>
    match headerMatch line with
    | some g =>
      flushThread cur ++ threadsLoop (some ⟨tid + 1, strip g, [], [], []⟩) (tid + 1) rest
    | none =>
      match cur with
      | some t =>
        match startedMatch line with
        | some g =>
          threadsLoop (some ⟨t.threadId, t.source, strip g, t.messages, t.participants⟩)
            tid rest
        | none =>
          match parseChatLine line with
          | some msg =>
            threadsLoop (some ⟨t.threadId, t.source, t.started, t.messages ++ [msg],
              if msg.sender.isEmpty then t.participants
              else setAdd t.participants msg.sender⟩) tid rest
          | none => threadsLoop (some t) tid rest
      | none =>
        match parseChatLine line with
        | some msg =>
          threadsLoop (some ⟨tid + 1,
            (if msg.source.isEmpty then str "Unknown" else msg.source), msg.timestamp,
            [msg], (if msg.sender.isEmpty then [] else [msg.sender])⟩) (tid + 1) rest
        | none => threadsLoop none tid rest

/-- Build the per-thread summary
(`thread_id, source, participants or ['Unknown'], message_count,
first_date, last_date, last_message_preview`). -/
def summarize (t : ThreadB) : ThreadOut :=
  { threadId := t.threadId
    source := t.source
    participants := if t.participants.isEmpty then [str "Unknown"] else t.participants
    messageCount := t.messages.length
    firstDate :=
      match t.messages.head? with
      | some m => m.timestamp
      | none => t.started
    lastDate :=
      match t.messages.getLast? with
      | some m => m.timestamp
      | none =>
        match t.messages.head? with
        | some m => m.timestamp
        | none => t.started
    lastPreview :=
      match t.messages.getLast? with
      | some m => m.body.take 150
      | none => []
    messages := t.messages }

/-- `data_loader.parse_chat_threads` over the lines of the file. -/
def parseChatThreads (lines : List Str) : List ThreadOut :=
  (threadsLoop none 0 lines).map summarize

theorem headerMatch_not_msg {line g : Str} (h : headerMatch line = some g) :
    parseChatLine line = none := by
  unfold headerMatch at h
  simp only [Option.bind_eq_some] at h
  obtain ⟨r, hr, _⟩ := h
  rw [expectPref_inv hr]
  rfl

theorem startedMatch_not_msg {line g : Str} (h : startedMatch line = some g) :
    parseChatLine line = none := by
  unfold startedMatch at h
  simp only [Option.bind_eq_some] at h
  obtain ⟨r, hr, _⟩ := h
  rw [expectPref_inv hr]
  rfl

theorem flushThread_join (cur : Option ThreadB) :
    ((flushThread cur).map ThreadB.messages).flatten =
      (match cur with | some t => t.messages | none => []) := by
  cases cur with
  | none => rfl
  | some t =>
    rw [show flushThread (some t) = if t.messages.isEmpty then [] else [t] from rfl]
    by_cases he : t.messages.isEmpty = true
    · rw [if_pos he]
      have : t.messages = [] := by simpa [List.isEmpty_iff] using he
      simp [this]
    · rw [if_neg he]
      simp

theorem threadsLoop_join : ∀ (lines : List Str) (cur : Option ThreadB) (tid : Nat),
    ((threadsLoop cur tid lines).map ThreadB.messages).flatten =
      (match cur with | some t => t.messages | none => []) ++
        lines.filterMap parseChatLine := by
  intro lines
  induction lines with
  | nil =>
    intro cur tid
    rw [show threadsLoop cur tid [] = flushThread cur from rfl, flushThread_join]
    simp
  | cons line rest ih =>
    intro cur tid
    cases hh : headerMatch line with
    | some g =>
      have hpm : parseChatLine line = none := headerMatch_not_msg hh
      rw [show threadsLoop cur tid (line :: rest) =
        (match headerMatch line with
        | some g =>
          flushThread cur ++ threadsLoop (some ⟨tid + 1, strip g, [], [], []⟩) (tid + 1) rest
        | none =>
          match cur with
          | some t =>
            match startedMatch line with
            | some g =>
              threadsLoop (some ⟨t.threadId, t.source, strip g, t.messages, t.participants⟩)
                tid rest
            | none =>
              match parseChatLine line with
              | some msg =>
                threadsLoop (some ⟨t.threadId, t.source, t.started, t.messages ++ [msg],
                  if msg.sender.isEmpty then t.participants
                  else setAdd t.participants msg.sender⟩) tid rest
              | none => threadsLoop (some t) tid rest
          | none =>
            match parseChatLine line with
            | some msg =>
              threadsLoop (some ⟨tid + 1,
                (if msg.source.isEmpty then str "Unknown" else msg.source), msg.timestamp,
                [msg], (if msg.sender.isEmpty then [] else [msg.sender])⟩) (tid + 1) rest
            | none => threadsLoop none tid rest) from rfl, hh]
      rw [List.map_append, List.flatten_append, flushThread_join, ih, List.filterMap_cons, hpm]
      simp
    | none =>
      rw [show threadsLoop cur tid (line :: rest) =
        (match headerMatch line with
        | some g =>
          flushThread cur ++ threadsLoop (some ⟨tid + 1, strip g, [], [], []⟩) (tid + 1) rest
        | none =>
          match cur with
          | some t =>
            match startedMatch line with
            | some g =>
              threadsLoop (some ⟨t.threadId, t.source, strip g, t.messages, t.participants⟩)
                tid rest
            | none =>
              match parseChatLine line with
              | some msg =>
                threadsLoop (some ⟨t.threadId, t.source, t.started, t.messages ++ [msg],
                  if msg.sender.isEmpty then t.participants
                  else setAdd t.participants msg.sender⟩) tid rest
              | none => threadsLoop (some t) tid rest
          | none =>
            match parseChatLine line with
            | some msg =>
              threadsLoop (some ⟨tid + 1,
                (if msg.source.isEmpty then str "Unknown" else msg.source), msg.timestamp,
                [msg], (if msg.sender.isEmpty then [] else [msg.sender])⟩) (tid + 1) rest
            | none => threadsLoop none tid rest) from rfl, hh]
      cases cur with
      | some t =>
        cases hsm : startedMatch line with
        | some g =>
          have hpm : parseChatLine line = none := startedMatch_not_msg hsm
          rw [ih, List.filterMap_cons, hpm]
        | none =>
          cases hpm : parseChatLine line with
          | some msg =>
            rw [ih, List.filterMap_cons, hpm]
            simp [List.append_assoc]
          | none =>
            rw [ih, List.filterMap_cons, hpm]
      | none =>
        cases hpm : parseChatLine line with
        | some msg =>
          rw [ih, List.filterMap_cons, hpm]
          simp
        | none =>
          rw [ih, List.filterMap_cons, hpm]

/-- C10: the flat message parser and the thread parser agree: `parse_chats`
returns exactly the concatenation, in thread order, of the per-thread
message lists of `parse_chat_threads`, and the thread `message_count`
fields sum to the number of `parse_chats` records. -/
theorem C10_parsers_agree (lines : List Str) :
    parseChats lines = ((parseChatThreads lines).map ThreadOut.messages).flatten ∧
    ((parseChatThreads lines).map ThreadOut.messageCount).sum =
      (parseChats lines).length := by
  have hmsg : (parseChatThreads lines).map ThreadOut.messages =
      (threadsLoop none 0 lines).map ThreadB.messages := by
    unfold parseChatThreads
    rw [List.map_map]
    rfl
  have h1 : parseChats lines = ((parseChatThreads lines).map ThreadOut.messages).flatten := by
    rw [hmsg, threadsLoop_join]
    rfl
  refine ⟨h1, ?_⟩
  have hcnt : (parseChatThreads lines).map ThreadOut.messageCount =
      ((parseChatThreads lines).map ThreadOut.messages).map List.length := by
    unfold parseChatThreads
    rw [List.map_map, List.map_map, List.map_map]
    rfl
  rw [h1, hcnt, List.length_flatten]

/-! ### Record store queries (`data_loader.DataStore.get_device_data` and
`db.EvidenceDB.get_device_data`)

Records are modelled by their timestamp (`r.get("timestamp") or ""`) and a
`text` field standing for the flattened rendering used by substring query
filters (`str(r).lower()` / the `searchable` column / `json.dumps(r)`). -/

/-- Association-list lookup (first match), modelling Python dict access. -/
def alookup {β : Type} : List (Str × β) → Str → Option β
  | [], _ => none
  | (k, v) :: rest, key => if k = key then some v else alookup rest key

/-- One stored record: timestamp plus its flattened text rendering. -/
structure DSRecord where
  timestamp : Str
  text : Str
deriving DecidableEq, Repr

/-- A record as returned by a device-data query: either as stored, or with
the `_category` tag added (all-categories branch), or an AXIOM per-category
count summary row. -/
inductive OutRec
  | plain (r : DSRecord)
  | tagged (category : Str) (r : DSRecord)
  | catCount (category : Str) (count : Nat)
deriving DecidableEq, Repr

/-- Timestamp of a returned record (`r.get("timestamp") or ""`). -/
def outTs : OutRec → Str
  | OutRec.plain r => r.timestamp
  | OutRec.tagged _ r => r.timestamp
  | OutRec.catCount _ _ => []

/-- Flattened text of a returned record. -/
def outText : OutRec → Str
  | OutRec.plain r => r.text
  | OutRec.tagged _ r => r.text
  | OutRec.catCount _ _ => []

/-- Paged query result (`{"records": ..., "total": ..., "page": ...,
"per_page": ...}`). -/
structure Page where
  records : List OutRec
  total : Nat
  page : Nat
  perPage : Nat
deriving DecidableEq, Repr

/-- The in-memory record store (`data_loader.DataStore`): per-device
category partitions, the AXIOM size index, and the lazily loaded AXIOM
JSON files keyed by their `device/category` path. -/
structure DataStore where
  cellebrite : List (Str × List (Str × List DSRecord))
  axiomIndex : List (Str × List (Str × Nat))
  axiomFiles : List (Str × List DSRecord)
deriving DecidableEq, Repr

/-- Path of the JSON file for one AXIOM device/category pair
(`AXIOM_DIR / device_id / f"{category}.json"`). -/
def axPath (device cat : Str) : Str := device ++ '/' :: cat

/-- Python string `>=` via `lexLt`. -/
def strGe (a b : Str) : Bool := !lexLt a b

/-- Python string `<=` via `lexLt`. -/
def strLe (a b : Str) : Bool := !lexLt b a

/-- Date filters of `get_device_data`: `timestamp >= date_from` and
`timestamp <= date_to + "T23:59:59"`. -/
def dateFilter (dateFrom dateTo : Option Str) (l : List OutRec) : List OutRec :=
  let l1 := match dateFrom with
    | some df => l.filter (fun r => strGe (outTs r) df)
    | none => l
  match dateTo with
  | some dt => l1.filter (fun r => strLe (outTs r) (dt ++ str "T23:59:59"))
  | none => l1

/-- Substring query filter: case-insensitive containment in the flattened
record text. -/
def queryFilter (query : Option Str) (l : List OutRec) : List OutRec :=
  match query with
  | some q => l.filter (fun r => containsSub (lowerStr (outText r)) (lowerStr q))
  | none => l

/-- Pagination: `records[(page-1)*per_page : (page-1)*per_page + per_page]`. -/
def paginate (page perPage : Nat) (l : List OutRec) : Page :=
  ⟨(l.drop ((page - 1) * perPage)).take perPage, l.length, page, perPage⟩

/-- Stable descending insertion by a strict-less test: the new element goes
in front of the first strictly smaller one. -/
def insDescBy {α : Type} (lt : α → α → Bool) (x : α) : List α → List α
  | [] => [x]
  | y :: ys => if lt y x then x :: y :: ys else y :: insDescBy lt x ys

/-- Stable descending insertion sort (models SQL `ORDER BY ... DESC` and
Python `sort(..., reverse=True)`). -/
def sortDescBy {α : Type} (lt : α → α → Bool) : List α → List α
  | [] => []
  | x :: xs => insDescBy lt x (sortDescBy lt xs)

/-- Ascending-by-key stable sort via the descending one on the flipped
test (models `sorted(...)`). -/
def sortAscBy {α : Type} (lt : α → α → Bool) : List α → List α :=
  sortDescBy (fun a b => lt b a)

/-- `data_loader.DataStore.get_device_data`: the in-memory path. A known
cellebrite device serves its parsed partitions (all categories tagged when
no category is given), filtered by date range and query and paginated —
with no sorting. A known AXIOM device lazily serves the category's JSON
file, or a category-sorted per-category count summary when no category is
given. An unknown device yields the empty result. -/
def dsGetDeviceData (store : DataStore) (device : Str) (category : Option Str)
    (page perPage : Nat) (query dateFrom dateTo : Option Str) : Page :=
  match alookup store.cellebrite device with
  | some data =>
    let base : List OutRec :=
      match category with
      | some cat =>
        (match alookup data cat with
          | some recs => recs
          | none => []).map OutRec.plain
      | none => (data.map (fun p => p.2.map (OutRec.tagged p.1))).flatten
    paginate page perPage (queryFilter query (dateFilter dateFrom dateTo base))
  | none =>
  match alookup store.axiomIndex device with
  | some fileIndex =>
    match category with
    | some cat =>
      let recs :=
        (match alookup store.axiomFiles (axPath device cat) with
          | some l => l
          | none => []).map OutRec.plain
      paginate page perPage (queryFilter query recs)
    | none =>
      let rows := (sortAscBy (fun (a b : Str × Nat) => lexLt a.1 b.1)
        (fileIndex.filter (fun p => 0 < p.2))).map (fun p => OutRec.catCount p.1 p.2)
      paginate page perPage rows
  | none => ⟨[], 0, page, perPage⟩

/-- One row of the SQL `records` table. -/
structure DBRecord where
  device : Str
  category : Str
  timestamp : Str
  searchable : Str
deriving DecidableEq, Repr

/-- The SQL-backed store (`db.EvidenceDB`): the `devices` table
(`device_id -> source`), the `records` table, the merged-device map, the
`device_category_counts` table, and the AXIOM JSON files. -/
structure DBStore where
  devices : List (Str × Str)
  records : List DBRecord
  mergedMap : List (Str × List Str)
  axiomCounts : List (Str × List (Str × Nat))
  axiomFiles : List (Str × List DSRecord)
deriving DecidableEq, Repr

/-- `db.EvidenceDB._resolve_device_ids`. -/
def resolveIds (st : DBStore) (device : Str) : List Str :=
  match alookup st.mergedMap device with
  | some l => l
  | none => [device]

/-- The SQL WHERE clause of the cellebrite branch of
`db.EvidenceDB.get_device_data`. -/
def dbWhere (subIds : List Str) (category : Option Str)
    (query dateFrom dateTo : Option Str) (r : DBRecord) : Bool :=
  decide (r.device ∈ subIds) &&
  (match category with | some cat => r.category == cat | none => true) &&
  (match dateFrom with | some df => strGe r.timestamp df | none => true) &&
  (match dateTo with | some dt => strLe r.timestamp (dt ++ str "T23:59:59") | none => true) &&
  (match query with
    | some q => containsSub (lowerStr r.searchable) (lowerStr q)
    | none => true)

/-- `db.EvidenceDB._get_axiom_data` for a single extraction. -/
def dbAxiomData (st : DBStore) (device : Str) (category : Option Str)
    (page perPage : Nat) (query : Option Str) : Page :=
  match category with
  | some cat =>
    let recs :=
      (match alookup st.axiomFiles (axPath device cat) with
        | some l => l
        | none => []).map OutRec.plain
    paginate page perPage (queryFilter query recs)
  | none =>
    let rows := (sortAscBy (fun (a b : Str × Nat) => lexLt a.1 b.1)
      ((match alookup st.axiomCounts device with
        | some l => l
        | none => []).filter (fun p => 0 < p.2))).map (fun p => OutRec.catCount p.1 p.2)
    ⟨rows, rows.length, 1, rows.length⟩

/-- `db.EvidenceDB._get_axiom_data_merged` over several extractions; each
record is tagged with its originating extraction identifier. -/
def dbAxiomDataMerged (st : DBStore) (subIds : List Str) (category : Option Str)
    (page perPage : Nat) (query : Option Str) : Page :=
  match category with
  | some cat =>
    let recs := (subIds.map (fun sid =>
      (match alookup st.axiomFiles (axPath sid cat) with
        | some l => l
        | none => []).map (OutRec.tagged sid))).flatten
    paginate page perPage (queryFilter query recs)
  | none =>
    let totals := subIds.foldl (fun (acc : List (Str × Nat)) sid =>
      (match alookup st.axiomCounts sid with
        | some l => l
        | none => []).foldl (fun (acc2 : List (Str × Nat)) (p : Str × Nat) =>
          match alookup acc2 p.1 with
          | some n => acc2.map (fun (q : Str × Nat) =>
              if q.1 = p.1 then (q.1, n + p.2) else q)
          | none => acc2 ++ [p]) acc) ([] : List (Str × Nat))
    let rows := (sortAscBy (fun (a b : Str × Nat) => lexLt a.1 b.1)
      totals).map (fun p => OutRec.catCount p.1 p.2)
    ⟨rows, rows.length, 1, rows.length⟩

/-- `db.EvidenceDB.get_device_data`: resolve merged ids, look up the first
sub-device's source; unknown devices yield the empty result; AXIOM devices
lazily load the category's JSON file (in file order); cellebrite devices
are served from the records table ordered by `timestamp DESC` with SQL
`LIMIT/OFFSET` pagination, each row tagged with its `_category`. -/
def dbGetDeviceData (st : DBStore) (device : Str) (category : Option Str)
    (page perPage : Nat) (query dateFrom dateTo : Option Str) : Page :=
  match (resolveIds st device).head? with
  | none => ⟨[], 0, page, perPage⟩
  | some d0 =>
    match alookup st.devices d0 with
    | none => ⟨[], 0, page, perPage⟩
    | some src =>
      if src = str "axiom" then
        if 1 < (resolveIds st device).length then
          dbAxiomDataMerged st (resolveIds st device) category page perPage query
        else dbAxiomData st d0 category page perPage query
      else
        let filtered := st.records.filter (dbWhere (resolveIds st device) category
          query dateFrom dateTo)
        let sorted := sortDescBy (fun a b => lexLt a.timestamp b.timestamp) filtered
        let rows := sorted.map (fun r => OutRec.tagged r.category ⟨r.timestamp, r.searchable⟩)
        ⟨(rows.drop ((page - 1) * perPage)).take perPage, filtered.length, page, perPage⟩

section SortLemmas

/-- Adjacent-pairs chain condition. -/
def chainB {α : Type} (r : α → α → Bool) : List α → Bool
  | [] => true
  | [_] => true
  | a :: b :: rest => r a b && chainB r (b :: rest)

theorem chainB_cons {α : Type} (r : α → α → Bool) (a : α) (l : List α) :
    chainB r (a :: l) = ((match l.head? with
      | some b => r a b
      | none => true) && chainB r l) := by
  cases l <;> simp [chainB]

theorem chainB_append_left {α : Type} {r : α → α → Bool} :
    ∀ {a b : List α}, chainB r (a ++ b) = true → chainB r a = true := by
  intro a b
  induction a with
  | nil => intro _; rfl
  | cons x as ih =>
    intro h
    rw [List.cons_append, chainB_cons] at h
    rcases andD h with ⟨h1, h2⟩
    rw [chainB_cons]
    refine andT ?_ (ih h2)
    cases as with
    | nil => rfl
    | cons y ys => simpa using h1

theorem chainB_append_right {α : Type} {r : α → α → Bool} :
    ∀ {a b : List α}, chainB r (a ++ b) = true → chainB r b = true := by
  intro a b
  induction a with
  | nil => intro h; simpa using h
  | cons x as ih =>
    intro h
    rw [List.cons_append, chainB_cons] at h
    exact ih (andD h).2

theorem chainB_take {α : Type} {r : α → α → Bool} {l : List α} (n : Nat)
    (h : chainB r l = true) : chainB r (l.take n) = true := by
  have := List.take_append_drop n l
  rw [← this] at h
  exact chainB_append_left h

theorem chainB_drop {α : Type} {r : α → α → Bool} {l : List α} (n : Nat)
    (h : chainB r l = true) : chainB r (l.drop n) = true := by
  have := List.take_append_drop n l
  rw [← this] at h
  exact chainB_append_right h

theorem chainB_map {α β : Type} (r : β → β → Bool) (f : α → β) :
    ∀ (l : List α), chainB r (l.map f) = chainB (fun a b => r (f a) (f b)) l := by
  intro l
  induction l with
  | nil => rfl
  | cons a l2 ih =>
    rw [List.map_cons, chainB_cons, chainB_cons, ih]
    cases l2 <;> simp

theorem lexLt_asymm : ∀ {a b : Str}, lexLt a b = true → lexLt b a = false := by
  intro a
  induction a with
  | nil =>
    intro b h
    cases b with
    | nil => simp [lexLt] at h
    | cons y ys => rfl
  | cons x xs ih =>
    intro b h
    cases b with
    | nil => simp [lexLt] at h
    | cons y ys =>
      simp only [lexLt] at h ⊢
      by_cases h1 : x.toNat < y.toNat
      · rw [if_neg (by omega), if_neg (by simp; omega)]
      · rw [if_neg h1] at h
        by_cases h2 : (x.toNat == y.toNat) = true
        · rw [if_pos h2] at h
          have hxy : x.toNat = y.toNat := by simpa using h2
          rw [if_neg (by omega), if_pos (by simp [hxy])]
          exact ih h
        · rw [if_neg h2] at h
          simp at h

theorem insDescBy_head {α : Type} (lt : α → α → Bool) (x : α) :
    ∀ (l : List α), (insDescBy lt x l).head? = some x ∨
      (insDescBy lt x l).head? = l.head? := by
  intro l
  cases l with
  | nil => exact Or.inl rfl
  | cons y ys =>
    by_cases h : lt y x = true
    · exact Or.inl (by simp [insDescBy, h])
    · exact Or.inr (by simp [insDescBy, h])

theorem insDescBy_desc {α : Type} (k : α → Str) (x : α) :
    ∀ {l : List α}, chainB (fun a b => !lexLt (k a) (k b)) l = true →
      chainB (fun a b => !lexLt (k a) (k b))
        (insDescBy (fun a b => lexLt (k a) (k b)) x l) = true := by
  intro l
  induction l with
  | nil => intro _; rfl
  | cons y ys ih =>
    intro h
    have hc := h
    rw [chainB_cons] at hc
    rcases andD hc with ⟨h1, h2⟩
    by_cases hlt : lexLt (k y) (k x) = true
    · rw [show insDescBy (fun a b => lexLt (k a) (k b)) x (y :: ys) =
        x :: y :: ys by simp [insDescBy, hlt]]
      rw [chainB_cons]
      refine andT (by simp [lexLt_asymm hlt]) ?_
      exact h
    · rw [show insDescBy (fun a b => lexLt (k a) (k b)) x (y :: ys) =
        y :: insDescBy (fun a b => lexLt (k a) (k b)) x ys by simp [insDescBy, hlt]]
      rw [chainB_cons]
      refine andT ?_ (ih h2)
      rcases insDescBy_head (fun a b => lexLt (k a) (k b)) x ys with hh | hh
      · rw [hh]
        simpa using hlt
      · rw [hh]
        cases ys with
        | nil => rfl
        | cons z zs => simpa using h1

theorem sortDescBy_desc {α : Type} (k : α → Str) :
    ∀ (l : List α), chainB (fun a b => !lexLt (k a) (k b))
      (sortDescBy (fun a b => lexLt (k a) (k b)) l) = true := by
  intro l
  induction l with
  | nil => rfl
  | cons x xs ih =>
    rw [show sortDescBy (fun a b => lexLt (k a) (k b)) (x :: xs) =
      insDescBy (fun a b => lexLt (k a) (k b)) x
        (sortDescBy (fun a b => lexLt (k a) (k b)) xs) from rfl]
    exact insDescBy_desc k x ih

end SortLemmas

/-- Returned page records are in non-ascending timestamp order. -/
def pageDesc (p : Page) : Prop :=
  chainB (fun a b => !lexLt (outTs a) (outTs b)) p.records = true

/-- A two-record chats partition whose parse order is ascending in time. -/
def c5Store : DataStore :=
  ⟨[(str "d1", [(str "chats",
      [⟨str "2021-01-01T00:00:00", str "alpha"⟩,
       ⟨str "2021-02-02T00:00:00", str "beta"⟩])])], [], []⟩

/-- Counterexample to C5 as stated: the in-memory record store
(`data_loader.DataStore.get_device_data`) returns records in parse order,
so a query against a partition stored in ascending time order yields a page
that is not ordered by timestamp descending, with no different order having
been specified for the operation. -/
theorem C5_counterexample :
    ¬ pageDesc (dsGetDeviceData c5Store (str "d1") (some (str "chats"))
      1 100 none none none) := by
  unfold pageDesc
  decide

/-- C5 (amended): pages served from the SQL records table
(`db.EvidenceDB.get_device_data`, non-AXIOM source) are ordered by
timestamp descending; the legacy in-memory store returns category records
as a subsequence of the parse-ordered partition (no reordering), as does
the bulk-JSON lazy path with file order. -/
theorem C5_sql_desc_inmemory_parse_order (st : DBStore) (device : Str)
    (category : Option Str) (page perPage : Nat) (query dateFrom dateTo : Option Str)
    (d0 src : Str)
    (h0 : (resolveIds st device).head? = some d0)
    (h1 : alookup st.devices d0 = some src)
    (h2 : ¬(src = str "axiom")) :
    pageDesc (dbGetDeviceData st device category page perPage query dateFrom dateTo) ∧
    (∀ (store : DataStore) (dev cat : Str) (p2 pp2 : Nat) (q2 df2 dt2 : Option Str)
      (data : List (Str × List DSRecord)) (recs : List DSRecord),
      alookup store.cellebrite dev = some data → alookup data cat = some recs →
      List.Sublist (dsGetDeviceData store dev (some cat) p2 pp2 q2 df2 dt2).records
        (recs.map OutRec.plain)) := by
  constructor
  · unfold pageDesc dbGetDeviceData
    split
    next hx => rw [h0] at hx; cases hx
    next d0x hx =>
      have hd : d0x = d0 := by
        rw [h0] at hx
        exact (Option.some_inj.mp hx).symm
      subst hd
      split
      next hy => rw [h1] at hy; cases hy
      next srcx hy =>
        have hsrc : srcx = src := by
          rw [h1] at hy
          exact (Option.some_inj.mp hy).symm
        subst hsrc
        rw [if_neg h2]
        have hsorted := sortDescBy_desc DBRecord.timestamp
          (st.records.filter (dbWhere (resolveIds st device) category query dateFrom dateTo))
        have hrows : chainB (fun a b => !lexLt (outTs a) (outTs b))
            ((sortDescBy (fun a b => lexLt a.timestamp b.timestamp)
              (st.records.filter (dbWhere (resolveIds st device) category query
                dateFrom dateTo))).map
              (fun r => OutRec.tagged r.category ⟨r.timestamp, r.searchable⟩)) = true := by
          rw [chainB_map]
          exact hsorted
        exact chainB_take _ (chainB_drop _ hrows)
  · intro store dev cat p2 pp2 q2 df2 dt2 data recs hdev hcat
    unfold dsGetDeviceData
    rw [hdev]
    dsimp only
    rw [hcat]
    dsimp only
    have hsub : ∀ (l : List OutRec),
        List.Sublist (queryFilter q2 l) l := by
      intro l
      cases q2 with
      | none => exact List.Sublist.refl l
      | some q => exact List.filter_sublist _
    have hsub2 : ∀ (l : List OutRec), List.Sublist (dateFilter df2 dt2 l) l := by
      intro l
      unfold dateFilter
      have s1 : List.Sublist (match df2 with
          | some df => l.filter (fun r => strGe (outTs r) df)
          | none => l) l := by
        cases df2 with
        | none => exact List.Sublist.refl l
        | some df => exact List.filter_sublist _
      cases dt2 with
      | none => exact s1
      | some dt => exact (List.filter_sublist _).trans s1
    refine ((List.take_sublist _ _).trans ((List.drop_sublist _ _).trans ?_))
    exact (hsub _).trans (hsub2 _)

/-- A two-row SQL store for the C5 witness. -/
def c5DbStore : DBStore :=
  ⟨[(str "d", str "cellebrite")],
   [⟨str "d", str "chats", str "2021-01-01T00:00:00", str "xray"⟩,
    ⟨str "d", str "chats", str "2021-02-02T00:00:00", str "yank"⟩],
   [], [], []⟩

/-- Witness for the amended C5 at a concrete SQL store. -/
theorem C5_sql_desc_witness :
    pageDesc (dbGetDeviceData c5DbStore (str "d") none 1 100 none none none) ∧
    (∀ (store : DataStore) (dev cat : Str) (p2 pp2 : Nat) (q2 df2 dt2 : Option Str)
      (data : List (Str × List DSRecord)) (recs : List DSRecord),
      alookup store.cellebrite dev = some data → alookup data cat = some recs →
      List.Sublist (dsGetDeviceData store dev (some cat) p2 pp2 q2 df2 dt2).records
        (recs.map OutRec.plain)) :=
  C5_sql_desc_inmemory_parse_order c5DbStore (str "d") none 1 100 none none none
    (str "d") (str "cellebrite") (by decide) (by decide) (by decide)

/-! ### Relationship graph builder (`network_builder.build_network`)

`make_id` is an MD5 hex digest of the normalized name in the source; only
its determinism (a fixed function of the normalized name) matters to the
claims, so the hash is a parameter. The parser stage of `build_network`
reads the four per-device files; the builder is modelled over the lists of
parsed contacts, calls, chat threads, and emails those parsers produce. -/

/-- One typed edge contribution: `shared_contact` entries carry `count` and
`appears_on_devices`; `chat` entries carry `platform`, `message_count` and
(in one branch) `date_range`. -/
inductive Contribution
  | sharedContact (count : Nat) (appearsOnDevices : List Str)
  | chat (platform : Str) (messageCount : Nat) (dateRange : Option (Option Str))
deriving DecidableEq, Repr

/-- The count a contribution adds: `count` for `shared_contact`,
`message_count` for `chat`. -/
def contribCount : Contribution → Nat
  | Contribution.sharedContact n _ => n
  | Contribution.chat _ mc _ => mc

/-- Sum of contribution counts of an edge. -/
def contribSum (l : List Contribution) : Nat := (l.map contribCount).sum

/-- Graph node (resolved identity). -/
structure GNode where
  id : Str
  name : Str
  ntype : Str
  role : Str
  devices : List Str
  contactCount : Nat
  callCount : Nat
  messageCount : Nat
  emailCount : Nat
  appearsOn : List Str
  caseFiles : List Nat
  caseFileCount : Nat
  totalMentions : Nat
deriving DecidableEq, Repr

/-- Edge under construction (`defaultdict(lambda: {"types": [], "weight": 0})`). -/
structure GEdge where
  weight : Nat
  types : List Contribution
deriving DecidableEq, Repr

/-- Parsed contact row (`parse_contacts`). -/
structure ContactIn where
  name : Str
  source : Str
  deviceOwner : Str
deriving DecidableEq, Repr

/-- Parsed call row (`parse_calls`); only `device_owner` is consumed by the
builder. -/
structure CallIn where
  timestamp : Str
  direction : Str
  status : Str
  duration : Str
  number : Str
  source : Str
  deviceOwner : Str
deriving DecidableEq, Repr

/-- Parsed chat thread (`network_builder.parse_chats`). -/
structure ThreadIn where
  platform : Str
  participants : List Str
  messageCount : Nat
  started : Option Str
  deviceOwner : Str
deriving DecidableEq, Repr

/-- Parsed email row (`parse_emails`); collected but never consumed by the
builder. -/
structure EmailIn where
  fromAddr : Str
  toAddr : Str
  deviceOwner : Str
deriving DecidableEq, Repr

/-- Update the node with the given id in place (Python `nodes[nid][...] = ...`;
every call site has checked the id exists). -/
def nupdate (nodes : List (Str × GNode)) (id : Str) (f : GNode → GNode) :
    List (Str × GNode) :=
  nodes.map (fun p => if p.1 = id then (p.1, f p.2) else p)

/-- `nid in nodes`. -/
def nhas (nodes : List (Str × GNode)) (id : Str) : Bool := (alookup nodes id).isSome

/-- `edges[edge_key]` access-and-mutate with `defaultdict` creation. -/
def eupdate (edges : List ((Str × Str) × GEdge)) (key : Str × Str)
    (f : GEdge → GEdge) : List ((Str × Str) × GEdge) :=
  if edges.any (fun p => p.1 == key) then
    edges.map (fun p => if p.1 = key then (p.1, f p.2) else p)
  else edges ++ [(key, f ⟨0, []⟩)]

/-- `tuple(sorted([a, b]))`. -/
def edgeKey (a b : Str) : Str × Str := if lexLt b a then (b, a) else (a, b)

/-- Is there a `shared_contact` contribution in the list. -/
def hasSC : List Contribution → Bool
  | [] => false
  | Contribution.sharedContact _ _ :: _ => true
  | _ :: rest => hasSC rest

/-- Increment the first `shared_contact` contribution's count and record the
device in its `appears_on_devices` if new (step 2 of the builder). -/
def bumpSCWithDevice (dev : Str) : List Contribution → List Contribution
  | [] => []
  | Contribution.sharedContact n devs :: rest =>
    Contribution.sharedContact (n + 1) (if dev ∈ devs then devs else devs ++ [dev]) :: rest
  | c :: rest => c :: bumpSCWithDevice dev rest

/-- Increment the first `shared_contact` contribution's count only
(step 6 of the builder). -/
def bumpSCCount : List Contribution → List Contribution
  | [] => []
  | Contribution.sharedContact n devs :: rest =>
    Contribution.sharedContact (n + 1) devs :: rest
  | c :: rest => c :: bumpSCCount rest

/-- Is there a `chat` contribution for the given platform. -/
def hasChatPlat (plat : Str) : List Contribution → Bool
  | [] => false
  | Contribution.chat p _ _ :: rest =>
    if p = plat then true else hasChatPlat plat rest
  | _ :: rest => hasChatPlat plat rest

/-- Add messages to the first `chat` contribution of the given platform. -/
def bumpChatPlat (plat : Str) (mc : Nat) : List Contribution → List Contribution
  | [] => []
  | Contribution.chat p m d :: rest =>
    if p = plat then Contribution.chat p (m + mc) d :: rest
    else Contribution.chat p m d :: bumpChatPlat plat mc rest
  | c :: rest => c :: bumpChatPlat plat mc rest

/-- Is there any `chat` contribution. -/
def hasChat : List Contribution → Bool
  | [] => false
  | Contribution.chat _ _ _ :: _ => true
  | _ :: rest => hasChat rest

/-- Add messages to the first `chat` contribution. -/
def bumpChat (mc : Nat) : List Contribution → List Contribution
  | [] => []
  | Contribution.chat p m d :: rest => Contribution.chat p (m + mc) d :: rest
  | c :: rest => c :: bumpChat mc rest

/-- Python `set.add` on string lists (first-insertion order). -/
def addUnique (l : List Str) (x : Str) : List Str := if x ∈ l then l else l ++ [x]

/-- Accumulated data for one unmatched contact name
(`contact_by_name[norm]`). -/
structure CBN where
  devices : List Str
  sources : List Str
  displayName : Str
deriving DecidableEq, Repr

/-- Record an unmatched contact under its normalized name: add the device
and source, and keep the latest raw spelling as display name. -/
def cbnUpsert (m : List (Str × CBN)) (norm : Str) (dev src name : Str) :
    List (Str × CBN) :=
  if m.any (fun p => p.1 == norm) then
    m.map (fun p => if p.1 = norm then
      (p.1, ⟨addUnique p.2.devices dev, addUnique p.2.sources src, name⟩) else p)
  else m ++ [(norm, ⟨[dev], [src], name⟩)]

/-- First-occurrence deduplication, modelling `list(set(...))` (Python set
iteration order is unspecified; no claim depends on this order). -/
def dedupGo (seen : List Str) : List Str → List Str
  | [] => []
  | x :: rest => if x ∈ seen then dedupGo seen rest else x :: dedupGo (seen ++ [x]) rest

def dedupFirst (l : List Str) : List Str := dedupGo [] l

/-- Ordered pairs (i < j) of a list, in double-loop order. -/
def pairsOf : List Str → List (Str × Str)
  | [] => []
  | x :: rest => rest.map (fun y => (x, y)) ++ pairsOf rest

/-- Final edge record of the returned graph. -/
structure NetEdge where
  source : Str
  target : Str
  types : List Contribution
  weight : Nat
deriving DecidableEq, Repr

/-- The returned graph. -/
structure Network where
  nodes : List GNode
  edges : List NetEdge
deriving DecidableEq, Repr

/-- Step 1: the curated primary nodes. -/
def initNodes (makeId : Str → Str) : List (Str × GNode) :=
  PRIMARY_PEOPLE.map (fun p =>
    (makeId p.name.data,
     ⟨makeId p.name.data, p.name.data, str "primary", p.role.data,
      p.devices.map String.data, 0, 0, 0, 0, [], [], 0, 0⟩))

/-- Step 2: process one contact — primaries get counts and a
`shared_contact` edge to the device owner; unmatched names accumulate in
`contact_by_name`. -/
def step2Contact (makeId : Str → Str)
    (st : List (Str × GNode) × List ((Str × Str) × GEdge) × List (Str × CBN))
    (c : ContactIn) :
    List (Str × GNode) × List ((Str × Str) × GEdge) × List (Str × CBN) :=
  let norm := normalizeName c.name
  if norm.isEmpty || norm.length < 2 then st
  else
    match matchPrimary c.name with
    | some primary =>
      let nid := makeId primary.data
      let nodes := nupdate st.1 nid (fun n =>
        { n with appearsOn := n.appearsOn ++ [c.deviceOwner],
                 contactCount := n.contactCount + 1 })
      match matchPrimary c.deviceOwner with
      | some op =>
        if op ≠ primary then
          let key := edgeKey (makeId op.data) nid
          let edges := eupdate st.2.1 key (fun e =>
            let e1 := { e with weight := e.weight + 1 }
            if hasSC e1.types then { e1 with types := bumpSCWithDevice c.deviceOwner e1.types }
            else { e1 with types :=
              e1.types ++ [Contribution.sharedContact 1 [c.deviceOwner]] })
          (nodes, edges, st.2.2)
        else (nodes, st.2.1, st.2.2)
      | none => (nodes, st.2.1, st.2.2)
    | none =>
      (st.1, st.2.1, cbnUpsert st.2.2 norm c.deviceOwner c.source c.name)

/-- Step 3: one `contact_by_name` entry — names on two or more devices
become secondary nodes with a `shared_contact` edge (of count 1) to each
matched device owner, while the edge weight is incremented per owner. -/
def step3Entry (makeId : Str → Str)
    (st : List (Str × GNode) × List ((Str × Str) × GEdge)) (p : Str × CBN) :
    List (Str × GNode) × List ((Str × Str) × GEdge) :=
  let info := p.2
  if 2 ≤ info.devices.length then
    let name := info.displayName
    let nid := makeId name
    let nodes := if nhas st.1 nid then st.1 else st.1 ++ [(nid,
      ⟨nid, name, str "secondary", str "contact", [], info.devices.length,
       0, 0, 0, info.devices, [], 0, 0⟩)]
    let edges := info.devices.foldl (fun es dev =>
      match matchPrimary dev with
      | some op =>
        let key := edgeKey (makeId op.data) nid
        eupdate es key (fun e =>
          let e1 := { e with weight := e.weight + 1 }
          if hasSC e1.types then e1
          else { e1 with types := e1.types ++ [Contribution.sharedContact 1 info.devices] })
      | none => es) st.2
    (nodes, edges)
  else st

/-- Step 5, inner else-branch: the participant is unmatched or is the owner;
an existing node (keyed by the raw participant name) gains messages and a
`chat` contribution; otherwise an active thread (5 or more messages)
creates an ad-hoc secondary node. -/
def step5Else (makeId : Str → Str) (ownerRaw : Str) (ownerId : Str) (t : ThreadIn)
    (st : List (Str × GNode) × List ((Str × Str) × GEdge)) (participant : Str) :
    List (Str × GNode) × List ((Str × Str) × GEdge) :=
  let targetId := makeId participant
  if nhas st.1 targetId then
    let nodes := nupdate st.1 targetId (fun n =>
      { n with messageCount := n.messageCount + t.messageCount })
    let key := edgeKey ownerId targetId
    let edges := eupdate st.2 key (fun e =>
      let e1 := { e with weight := e.weight + t.messageCount }
      if hasChat e1.types then { e1 with types := bumpChat t.messageCount e1.types }
      else { e1 with types := e1.types ++ [Contribution.chat t.platform t.messageCount none] })
    (nodes, edges)
  else if 5 ≤ t.messageCount then
    let nodes := st.1 ++ [(targetId,
      ⟨targetId, participant, str "secondary", str "chat_contact", [],
       0, 0, t.messageCount, 0, [ownerRaw], [], 0, 0⟩)]
    let key := edgeKey ownerId targetId
    let edges := eupdate st.2 key (fun e =>
      { e with weight := e.weight + t.messageCount,
               types := e.types ++ [Contribution.chat t.platform t.messageCount none] })
    (nodes, edges)
  else st

/-- Step 5: one chat thread — matched participants other than the owner get
message counts and a platform-keyed `chat` edge contribution carrying the
thread's `date_range`. -/
def step5Thread (makeId : Str → Str)
    (st : List (Str × GNode) × List ((Str × Str) × GEdge)) (t : ThreadIn) :
    List (Str × GNode) × List ((Str × Str) × GEdge) :=
  match matchPrimary t.deviceOwner with
  | none => st
  | some op =>
    let ownerId := makeId op.data
    t.participants.foldl (fun st2 participant =>
      if participant.isEmpty || participant = str "****" then st2
      else
        match matchPrimary participant with
        | some primary =>
          if primary ≠ op then
            let targetId := makeId primary.data
            let nodes := nupdate st2.1 targetId (fun n =>
              { n with messageCount := n.messageCount + t.messageCount })
            let key := edgeKey ownerId targetId
            let edges := eupdate st2.2 key (fun e =>
              let e1 := { e with weight := e.weight + t.messageCount }
              if hasChatPlat t.platform e1.types then
                { e1 with types := bumpChatPlat t.platform t.messageCount e1.types }
              else { e1 with types := e1.types ++
                [Contribution.chat t.platform t.messageCount (some t.started)] })
            (nodes, edges)
          else step5Else makeId t.deviceOwner ownerId t st2 participant
        | none => step5Else makeId t.deviceOwner ownerId t st2 participant) st

/-- Step 6: one `contact_by_name` entry — every pair of distinct matched
owners sharing the contact gets a `shared_contact` contribution; an
existing contribution's count is incremented (without touching the weight),
a new contribution adds weight 1. -/
def step6Entry (makeId : Str → Str) (edges : List ((Str × Str) × GEdge))
    (p : Str × CBN) : List ((Str × Str) × GEdge) :=
  let devs := p.2.devices
  if 2 ≤ devs.length then
    (pairsOf devs).foldl (fun es pr =>
      match matchPrimary pr.1, matchPrimary pr.2 with
      | some oa, some ob =>
        if oa ≠ ob then
          let key := edgeKey (makeId oa.data) (makeId ob.data)
          eupdate es key (fun e =>
            if hasSC e.types then { e with types := bumpSCCount e.types }
            else { e with weight := e.weight + 1,
                          types := e.types ++ [Contribution.sharedContact 1 devs] })
        else es
      | _, _ => es) edges
  else edges

/-- `network_builder.build_network` over the parsed inputs. -/
def buildNetwork (hash : Str → Str) (legalIndex : List (Str × List Nat))
    (allContacts : List ContactIn) (allCalls : List CallIn)
    (allChats : List ThreadIn) (allEmails : List EmailIn) : Network :=
  let makeId := fun (name : Str) => hash (normalizeName name)
  let nodes0 := initNodes makeId
  let s2 := allContacts.foldl (step2Contact makeId) (nodes0, [], [])
  let cbn := s2.2.2
  let s3 := cbn.foldl (step3Entry makeId) (s2.1, s2.2.1)
  let nodes4 := allCalls.foldl (fun ns call =>
    match matchPrimary call.deviceOwner with
    | some op => nupdate ns (makeId op.data) (fun n => { n with callCount := n.callCount + 1 })
    | none => ns) s3.1
  let s5 := allChats.foldl (step5Thread makeId) (nodes4, s3.2)
  let edges6 := cbn.foldl (step6Entry makeId) s5.2
  let nodes7 := s5.1.map (fun p =>
    let cf := match alookup legalIndex p.2.name with
      | some l => l
      | none => []
    (p.1, { p.2 with caseFiles := cf.take 50,
                     caseFileCount := cf.length,
                     totalMentions := cf.sum }))
  let nodes8 := nodes7.map (fun p => (p.1, { p.2 with appearsOn := dedupFirst p.2.appearsOn }))
  let edgeList := (edges6.filter (fun p => 0 < p.2.weight)).map
    (fun p => NetEdge.mk p.1.1 p.1.2 p.2.types p.2.weight)
  ⟨nodes8.map (fun p => p.2),
   sortDescBy (fun a b => decide (a.weight < b.weight)) edgeList⟩

/-- Connection entry of `get_person_details`. -/
structure Conn where
  person : GNode
  edge : NetEdge
deriving DecidableEq, Repr

/-- Result of `get_person_details`. -/
structure PersonDetails where
  person : GNode
  connections : List Conn
  totalConnections : Nat
deriving DecidableEq, Repr

/-- `network_builder.get_person_details`: find the node by id (None when
absent), collect its incident edges with the peer node, sorted by weight
descending. -/
def getPersonDetails (personId : Str) (net : Network) : Option PersonDetails :=
  match net.nodes.find? (fun n => n.id == personId) with
  | none => none
  | some node =>
    let conns := net.edges.filterMap (fun e =>
      if e.source == personId || e.target == personId then
        let otherId := if e.source == personId then e.target else e.source
        match net.nodes.find? (fun n => n.id == otherId) with
        | some other => some ⟨other, e⟩
        | none => none
      else none)
    let sorted := sortDescBy (fun a b => decide (a.edge.weight < b.edge.weight)) conns
    some ⟨node, sorted, sorted.length⟩

/-! ### Discovery engine (`discovery_engine.scan_discoveries`, `_deduplicate`)

Records mirror the parsed dicts the scanner reads (`.get` defaults folded
into plain `Str` fields where every producer supplies the key; kept as
`Option Str` where the scanner itself distinguishes a missing key). -/

/-- One parsed chat message as read by the scanner. -/
structure ChatRec where
  body : Str
  timestamp : Str
  source : Str
deriving DecidableEq, Repr

/-- One parsed email. -/
structure EmailRec where
  subject : Str
  preview : Str
  timestamp : Str
deriving DecidableEq, Repr

/-- One parsed search query. -/
structure SearchRec where
  query : Str
  timestamp : Str
  source : Str
deriving DecidableEq, Repr

/-- One stored credential record (`content` falling back to `service`). -/
structure PassRec where
  content : Option Str
  service : Option Str
deriving DecidableEq, Repr

/-- One location record. -/
structure LocRec where
  timestamp : Str
  address : Str
  coords : Option Str
  source : Str
deriving DecidableEq, Repr

/-- One call record. -/
structure CallRec where
  timestamp : Str
  direction : Str
  status : Str
  duration : Str
  details : Str
deriving DecidableEq, Repr

/-- One browsing-history record. -/
structure BrowseRec where
  timestamp : Str
  title : Str
  url : Str
  browser : Str
deriving DecidableEq, Repr

/-- One contact record (only the name is read). -/
structure ContactRec where
  name : Str
deriving DecidableEq, Repr

/-- The per-device category partitions handed to the scanner. -/
structure DeviceCats where
  chats : List ChatRec
  emails : List EmailRec
  searches : List SearchRec
  passwords : List PassRec
  locations : List LocRec
  calls : List CallRec
  browsing : List BrowseRec
  contacts : List ContactRec
deriving DecidableEq, Repr

/-- `KEY_TERMS` with their flame tiers, in dict order. -/
def KEY_TERMS : List (Str × Nat) :=
  [(str "trusted build", 3), (str "Gold Hill", 3), (str "adjudication", 3),
   (str "Conan", 3), (str "Hayes", 3), (str "Griswold", 3), (str "ballot image", 3),
   (str "Dominion", 2), (str "MCUA", 2), (str "M.C.U.A", 2),
   (str "forensic image", 2), (str "election fraud", 2),
   (str "voting system", 2), (str "Secretary of State", 2),
   (str "Dominion Voting", 2), (str "election security", 2),
   (str "ballot", 1), (str "audit", 1), (str "tabulator", 1),
   (str "Mike Lindell", 1), (str "MyPillow", 1), (str "cyber symposium", 1),
   (str "Jessi Romero", 1), (str "Judd Choate", 1)]

/-- `CRITICAL_DATES`: date, label, flames, in dict order. -/
def CRITICAL_DATES : List (Str × Str × Nat) :=
  [(str "2021-05-23", str "Trusted Build Weekend", 3),
   (str "2021-05-24", str "Trusted Build Weekend", 3),
   (str "2021-05-25", str "Trusted Build Day", 3),
   (str "2021-05-26", str "Post Trusted Build", 3),
   (str "2021-08-10", str "Second Scan / SOS Investigation Announced", 3),
   (str "2021-08-11", str "Second Scan Day", 3),
   (str "2021-08-09", str "SOS Investigation Announced", 3),
   (str "2021-08-12", str "Post Second Scan", 2),
   (str "2021-07-29", str "Mesa County Forensic Image Timing", 2),
   (str "2021-07-30", str "Mesa County Forensic Image Timing", 2)]

/-- `KEY_PEOPLE` used by the cross-device pass. -/
def KEY_PEOPLE : List Str :=
  [str "Tina Peters", str "Tina", str "Wendi", str "Woods", str "Gerald Wood",
   str "Sherronna", str "Bishop", str "Sandra Brown", str "Sandye",
   str "Belinda", str "Knisley", str "Joy Quinn", str "Zachary"]

/-- A discovery dict. `deviceId`, `timestamp` carry Python `None` as
`none`; `dataType` and `sourceApp` are `none` when the key is absent
(the pre-seeded verified entries carry neither). -/
structure Discovery where
  id : Str
  title : Str
  category : Str
  flames : Nat
  deviceId : Option Str
  owner : Str
  content : Str
  timestamp : Option Str
  verified : Bool
  tags : List Str
  dataType : Option Str
  sourceApp : Option Str
deriving DecidableEq, Repr

/-- `sep.join(parts)`. -/
def joinStr (sep : Str) : List Str → Str
  | [] => []
  | [x] => x
  | x :: y :: rest => x ++ sep ++ joinStr sep (y :: rest)

/-- Digit character of `n % 10`. -/
def natDigit (n : Nat) : Char := Char.ofNat (48 + n % 10)

/-- Decimal rendering, fuel-driven so it reduces in the kernel. -/
def natToStrAux : Nat → Nat → Str
  | 0, _ => []
  | fuel + 1, n => if n < 10 then [natDigit n] else natToStrAux fuel (n / 10) ++ [natDigit n]

/-- Python `str(n)` for naturals. -/
def natToStr (n : Nat) : Str := natToStrAux (n + 1) n

/-- Python truthiness of an optional string (`None` and `""` are falsy). -/
def tsTruthy : Option Str → Bool
  | none => false
  | some t => !t.isEmpty

/-- Does `s` start with `pat`, returning the rest. -/
def stripPrefixOf : Str → Str → Option Str
  | [], s => some s
  | _ :: _, [] => none
  | p :: ps, c :: cs => if p = c then stripPrefixOf ps cs else none

/-- `\b` holds before the pattern: at the start or after a non-word char
(all scanned patterns start with a word char). -/
def boundaryBefore : Option Char → Bool
  | none => true
  | some c => !pWord c

/-- `\b` holds after the pattern: at the end or before a non-word char. -/
def boundaryAfter : Str → Bool
  | [] => true
  | c :: _ => !pWord c

/-- The pattern matches at this position with a word boundary after it. -/
def wbHere (pat s : Str) : Bool :=
  match stripPrefixOf pat s with
  | some rest => boundaryAfter rest
  | none => false

/-- Scan `s` for a word-boundary occurrence of `pat`, tracking the
previous character. -/
def cwGo (pat : Str) (prev : Option Char) : Str → Bool
  | [] => boundaryBefore prev && wbHere pat []
  | c :: rest => (boundaryBefore prev && wbHere pat (c :: rest)) || cwGo pat (some c) rest

/-- `re.search(r"\b" + re.escape(pat) + r"\b", s)` for the scanned patterns
(which begin and end with word characters). -/
def containsWordB (s pat : Str) : Bool := cwGo pat none s

/-- The curated `VERIFIED_DISCOVERIES` (no `data_type` / `source_app` keys). -/
def VERIFIED_DISCOVERIES : List Discovery :=
  [⟨str "verified-1",
    str "DHS Confirmed Posting \x27Does Not Heighten Risk\x27 — Defense Gold",
    str "Cross-Device", 3, none, str "Multiple",
    str "DHS confirmed that the posting of Mesa County election data \x27does not heighten risk\x27 to election security. This is a critical defense finding that undermines the prosecution\x27s claims about the severity of the alleged breach.",
    none, true, [str "defense", str "DHS", str "risk assessment"], none, none⟩,
   ⟨str "verified-2",
    str "Signal Group \x27M.C.U.A\x27 — Tina, Wendi Woods & Others",
    str "Communications", 3, some (str "wendi-woods"), str "Wendi Woods",
    str "Signal messaging group named \x27MCUA\x27 included Tina Peters, Wendi Woods, and other associates. The group was used for secure communications. A friend added Wendi to the MCUA Signal group. References found in Wendi Woods\x27 Facebook Messenger conversations discussing the group.",
    some (str "2021-08-06T21:07:24+00:00"), true,
    [str "Signal", str "MCUA", str "encrypted"], none, none⟩,
   ⟨str "verified-3",
    str "80 Dominion Mentions in Tina\x27s Emails, 29 Trusted Build Mentions",
    str "Communications", 2, none, str "Tina Peters",
    str "Tina Peters\x27 email correspondence contains approximately 80 references to Dominion Voting Systems and 29 references to the trusted build process, indicating extensive documentation and communication about the election system and its management.",
    none, true, [str "Dominion", str "trusted build", str "email"], none, none⟩,
   ⟨str "verified-4",
    str "43 Dominion Mentions in Belinda Knisley\x27s Emails",
    str "Communications", 2, some (str "belinda-knisley"), str "Belinda Knisley",
    str "Belinda Knisley\x27s email correspondence contains 43 references to Dominion Voting Systems, showing her involvement in election system communications as a Mesa County Clerk & Recorder staff member.",
    none, true, [str "Dominion", str "email", str "Belinda Knisley"], none, none⟩,
   ⟨str "verified-5",
    str "Tina Peters iPhone FBI GrayKey Extraction — Signal, Telegram, iMessages",
    str "Cross-Device", 3, none, str "Tina Peters",
    str "The FBI extracted data from Tina Peters\x27 iPhone 11 using GrayKey forensic tool. The extraction captured Signal messages, Telegram conversations, and iMessages from the June-August 2021 critical period. This is the most direct evidence of Tina\x27s personal communications.",
    none, true, [str "FBI", str "GrayKey", str "Signal", str "Telegram"], none, none⟩,
   ⟨str "verified-6",
    str "Joy Quinn Phone — Date Filter March 1 to August 11, 2021",
    str "Cross-Device", 2, some (str "joy-quinn"), str "Joy Quinn",
    str "Joy Quinn\x27s phone data was specifically filtered for the March 1 to August 11, 2021 timeframe, covering the entire period from pre-trusted-build planning through the second scan event and SOS investigation announcement.",
    none, true, [str "Joy Quinn", str "date filter", str "critical period"], none, none⟩]

/-- Chat key-term matching: the matched terms in dict order and the
maximum flames (with the dead `signal`/`telegram` attribution skip for
short bodies, kept as in the source). -/
def chatTerms (body : Str) : List Str × Nat :=
  KEY_TERMS.foldl (fun acc p =>
    if containsSub (lowerStr body) (lowerStr p.1) then
      if (lowerStr p.1 == str "signal" || lowerStr p.1 == str "telegram") &&
          decide (body.length < 30) then acc
      else (acc.1 ++ [p.1], max acc.2 p.2)
    else acc) ([], 0)

/-- Key-term matching against a free-text field (emails, searches,
browsing): matched terms and maximum flames. -/
def keyTerms (text : Str) : List Str × Nat :=
  KEY_TERMS.foldl (fun acc p =>
    if containsSub (lowerStr text) (lowerStr p.1) then (acc.1 ++ [p.1], max acc.2 p.2)
    else acc) ([], 0)

/-- Substring-matched suspicious search patterns. -/
def SUS_SUB : List Str :=
  [str "how to delete", str "clear history", str "delete messages", str "factory reset"]

/-- Word-boundary-matched suspicious search patterns. -/
def SUS_WB : List Str := [str "wipe", str "erase", str "remove evidence"]

/-- Full search-query matching: key terms, then suspicious substrings,
then word-boundary patterns, each suspicious match forcing flames 3. -/
def searchMatches (query : Str) : List Str × Nat :=
  let a := keyTerms query
  let b := SUS_SUB.foldl (fun acc s =>
    if containsSub (lowerStr query) s then (acc.1 ++ [s], max acc.2 3) else acc) a
  SUS_WB.foldl (fun acc s =>
    if containsWordB (lowerStr query) s then (acc.1 ++ [s], max acc.2 3) else acc) b

/-- The keyword chat discovery (`chat-{device}-{id}`). -/
def chatTermDisc (device owner : Str) (m : ChatRec) (tm : List Str × Nat)
    (j : Nat) : Discovery :=
  ⟨str "chat-" ++ device ++ '-' :: natToStr j,
   owner ++ str ": Message mentioning " ++ joinStr (str ", ") (tm.1.take 3),
   str "Communications", tm.2, some device, owner, m.body.take 500,
   some m.timestamp, false, tm.1.take 5, some (str "chats"), some m.source⟩

/-- The critical-date chat discovery (`date-{device}-{id}`). -/
def chatDateDisc (device owner : Str) (m : ChatRec) (ds lbl : Str) (fl : Nat)
    (j : Nat) : Discovery :=
  ⟨str "date-" ++ device ++ '-' :: natToStr j,
   owner ++ str ": Message on " ++ lbl ++ str " (" ++ ds ++ [')'],
   str "Communications", fl, some device, owner, m.body.take 500,
   some m.timestamp, false, [lbl, ds], some (str "chats"), some m.source⟩

/-- The email discovery (`email-{device}-{id}`). -/
def emailDisc (device owner : Str) (e : EmailRec) (tm : List Str × Nat)
    (j : Nat) : Discovery :=
  ⟨str "email-" ++ device ++ '-' :: natToStr j,
   owner ++ str ": Email — " ++ e.subject.take 80,
   str "Communications", tm.2, some device, owner,
   str "Subject: " ++ e.subject ++ '\n' :: e.preview.take 400,
   some e.timestamp, false, tm.1.take 5, some (str "emails"), none⟩

/-- The search discovery (`search-{device}-{id}`). -/
def searchDisc (device owner : Str) (s : SearchRec) (mm : List Str × Nat)
    (j : Nat) : Discovery :=
  ⟨str "search-" ++ device ++ '-' :: natToStr j,
   owner ++ str ": Searched \x27" ++ s.query.take 60 ++ ['\x27'],
   str "Searches", mm.2, some device, owner,
   str "Search query: " ++ s.query ++ str "\nSource: " ++ s.source ++
     str "\nTime: " ++ s.timestamp,
   some s.timestamp, false, mm.1.take 5, some (str "searches"), none⟩

/-- The aggregate passwords discovery (`passwords-{device}-{id}`). -/
def passDisc (device owner : Str) (ps : List PassRec) (j : Nat) : Discovery :=
  ⟨str "passwords-" ++ device ++ '-' :: natToStr j,
   owner ++ str ": " ++ natToStr ps.length ++ str " Stored Passwords Found",
   str "Passwords", 2, some device, owner,
   str "Found " ++ natToStr ps.length ++ str " stored passwords/credentials.\nSamples:\n" ++
     joinStr (str "\n") (((ps.take 10).map (fun p =>
       ((p.content.getD (p.service.getD [])).take 80))).map (fun s => str "  • " ++ s)),
   none, false, [str "passwords", str "credentials"], some (str "passwords"), none⟩

/-- The critical-date location discovery (`loc-{device}-{id}`). -/
def locDisc (device owner : Str) (loc : LocRec) (ds lbl : Str) (fl : Nat)
    (j : Nat) : Discovery :=
  ⟨str "loc-" ++ device ++ '-' :: natToStr j,
   owner ++ str ": Location on " ++ lbl ++ str " (" ++ ds ++ [')'],
   str "Locations", fl, some device, owner,
   str "Location: " ++
     (if loc.address.isEmpty then loc.coords.getD (str "Unknown") else loc.address) ++
     str "\nSource: " ++ loc.source ++ str "\nTime: " ++ loc.timestamp,
   some loc.timestamp, false, [lbl, str "location"], some (str "locations"), none⟩

/-- The critical-date call discovery (`call-{device}-{id}`). -/
def callDisc (device owner : Str) (c : CallRec) (ds lbl : Str) (fl : Nat)
    (j : Nat) : Discovery :=
  ⟨str "call-" ++ device ++ '-' :: natToStr j,
   owner ++ str ": " ++ c.direction ++ str " call on " ++ lbl,
   str "Communications", fl, some device, owner,
   str "Direction: " ++ c.direction ++ str "\nStatus: " ++ c.status ++
     str "\nDuration: " ++ c.duration ++ str "\nDetails: " ++ c.details ++
     str "\nTime: " ++ c.timestamp,
   some c.timestamp, false, [lbl, str "call", c.direction], some (str "calls"), none⟩

/-- The browsing discovery (`browse-{device}-{id}`). -/
def browseDisc (device owner : Str) (b : BrowseRec) (mm : List Str × Nat)
    (j : Nat) : Discovery :=
  ⟨str "browse-" ++ device ++ '-' :: natToStr j,
   owner ++ str ": Visited \x27" ++ b.title.take 60 ++ ['\x27'],
   str "Searches", mm.2, some device, owner,
   str "Title: " ++ b.title ++ str "\nURL: " ++ b.url ++
     str "\nBrowser: " ++ b.browser ++ str "\nTime: " ++ b.timestamp,
   some b.timestamp, false, mm.1.take 5, some (str "browsing"), none⟩

/-- The cross-device shared-contact discovery (`cross-{id}`). -/
def crossDisc (name : Str) (uniq : List Str) (fl : Nat) (j : Nat) : Discovery :=
  ⟨str "cross-" ++ natToStr j,
   str "Cross-Device: \x27" ++ name ++ str "\x27 appears on " ++
     natToStr uniq.length ++ str " devices",
   str "Cross-Device", fl, none, str "Multiple",
   str "Contact \x27" ++ name ++ str "\x27 found on: " ++ joinStr (str ", ") uniq,
   none, false, [str "cross-device", str "shared contact", name],
   some (str "contacts"), none⟩

/-- The keyword emission step for one chat message: emit iff some term
matched and the maximum flames reach 2. -/
def chatTermEmit (device owner : Str) (i : Nat) (m : ChatRec) : Nat × List Discovery :=
  if !(chatTerms m.body).1.isEmpty && 2 ≤ (chatTerms m.body).2 then
    (i + 1, [chatTermDisc device owner m (chatTerms m.body) (i + 1)])
  else (i, [])

/-- The critical-dates loop for one chat message (no break: every
matching date emits). -/
def chatDates (device owner : Str) (m : ChatRec) :
    Nat → List (Str × Str × Nat) → Nat × List Discovery
  | i, [] => (i, [])
  | i, e :: rest =>
    if !m.timestamp.isEmpty && isPrefOf e.1 m.timestamp then
      let c := chatDates device owner m (i + 1) rest
      (c.1, chatDateDisc device owner m e.1 e.2.1 e.2.2 (i + 1) :: c.2)
    else chatDates device owner m i rest

/-- The chats section: messages with empty or short bodies are skipped
entirely; others run the keyword emission and the dates loop. -/
def chatScan (device owner : Str) : Nat → List ChatRec → Nat × List Discovery
  | i, [] => (i, [])
  | i, m :: rest =>
    if m.body.isEmpty || decide (m.body.length < 5) then chatScan device owner i rest
    else
      let a := chatTermEmit device owner i m
      let b := chatDates device owner m a.1 CRITICAL_DATES
      let c := chatScan device owner b.1 rest
      (c.1, a.2 ++ b.2 ++ c.2)

/-- The emission step for one email: subject and preview joined by a
space, emit iff matched and maximum flames reach 2. -/
def emailEmit (device owner : Str) (i : Nat) (e : EmailRec) : Nat × List Discovery :=
  if !(keyTerms (e.subject ++ ' ' :: e.preview)).1.isEmpty &&
      2 ≤ (keyTerms (e.subject ++ ' ' :: e.preview)).2 then
    (i + 1, [emailDisc device owner e (keyTerms (e.subject ++ ' ' :: e.preview)) (i + 1)])
  else (i, [])

/-- The emails section. -/
def emailScan (device owner : Str) : Nat → List EmailRec → Nat × List Discovery
  | i, [] => (i, [])
  | i, e :: rest =>
    let a := emailEmit device owner i e
    let c := emailScan device owner a.1 rest
    (c.1, a.2 ++ c.2)

/-- The emission step for one search query: emit iff anything matched
(key terms or suspicious patterns), with no tier threshold. -/
def searchEmit (device owner : Str) (i : Nat) (s : SearchRec) : Nat × List Discovery :=
  if !(searchMatches s.query).1.isEmpty then
    (i + 1, [searchDisc device owner s (searchMatches s.query) (i + 1)])
  else (i, [])

/-- The searches section. -/
def searchScan (device owner : Str) : Nat → List SearchRec → Nat × List Discovery
  | i, [] => (i, [])
  | i, s :: rest =>
    let a := searchEmit device owner i s
    let c := searchScan device owner a.1 rest
    (c.1, a.2 ++ c.2)

/-- The passwords section: one aggregate discovery when any credential
records exist. -/
def passScan (device owner : Str) (i : Nat) (ps : List PassRec) : Nat × List Discovery :=
  if ps.isEmpty then (i, []) else (i + 1, [passDisc device owner ps (i + 1)])

/-- First critical date the timestamp starts with (the `break` of the
locations and calls loops). -/
def firstDate (ts : Str) : List (Str × Str × Nat) → Option (Str × Str × Nat)
  | [] => none
  | e :: rest => if !ts.isEmpty && isPrefOf e.1 ts then some e else firstDate ts rest

/-- The locations section: at most one discovery per location record. -/
def locScan (device owner : Str) : Nat → List LocRec → Nat × List Discovery
  | i, [] => (i, [])
  | i, loc :: rest =>
    match firstDate loc.timestamp CRITICAL_DATES with
    | some e =>
      let c := locScan device owner (i + 1) rest
      (c.1, locDisc device owner loc e.1 e.2.1 e.2.2 (i + 1) :: c.2)
    | none => locScan device owner i rest

/-- The calls section: at most one discovery per call record. -/
def callScan (device owner : Str) : Nat → List CallRec → Nat × List Discovery
  | i, [] => (i, [])
  | i, call :: rest =>
    match firstDate call.timestamp CRITICAL_DATES with
    | some e =>
      let c := callScan device owner (i + 1) rest
      (c.1, callDisc device owner call e.1 e.2.1 e.2.2 (i + 1) :: c.2)
    | none => callScan device owner i rest

/-- The emission step for one browsing entry: title and URL joined by a
space, emit iff matched and maximum flames reach 2. -/
def browseEmit (device owner : Str) (i : Nat) (b : BrowseRec) : Nat × List Discovery :=
  if !(keyTerms (b.title ++ ' ' :: b.url)).1.isEmpty &&
      2 ≤ (keyTerms (b.title ++ ' ' :: b.url)).2 then
    (i + 1, [browseDisc device owner b (keyTerms (b.title ++ ' ' :: b.url)) (i + 1)])
  else (i, [])

/-- The browsing section. -/
def browseScan (device owner : Str) : Nat → List BrowseRec → Nat × List Discovery
  | i, [] => (i, [])
  | i, b :: rest =>
    let a := browseEmit device owner i b
    let c := browseScan device owner a.1 rest
    (c.1, a.2 ++ c.2)

/-- All sections for one device, in source order. -/
def scanDevice (dm : List (Str × Str)) (i : Nat) (device : Str) (cats : DeviceCats) :
    Nat × List Discovery :=
  let owner := (alookup dm device).getD device
  let s1 := chatScan device owner i cats.chats
  let s2 := emailScan device owner s1.1 cats.emails
  let s3 := searchScan device owner s2.1 cats.searches
  let s4 := passScan device owner s3.1 cats.passwords
  let s5 := locScan device owner s4.1 cats.locations
  let s6 := callScan device owner s5.1 cats.calls
  let s7 := browseScan device owner s6.1 cats.browsing
  (s7.1, s1.2 ++ s2.2 ++ s3.2 ++ s4.2 ++ s5.2 ++ s6.2 ++ s7.2)

/-- The per-device loop of `scan_discoveries`. -/
def scanLoop (dm : List (Str × Str)) : Nat → List (Str × DeviceCats) → Nat × List Discovery
  | i, [] => (i, [])
  | i, e :: rest =>
    let a := scanDevice dm i e.1 e.2
    let c := scanLoop dm a.1 rest
    (c.1, a.2 ++ c.2)

/-- Append a device to a contact name\x27s device list in `all_contacts`
(unconditionally, as in the source; uniqueness comes later via `set`). -/
def acUpsert (m : List (Str × List Str)) (name device : Str) : List (Str × List Str) :=
  if m.any (fun p => p.1 == name) then
    m.map (fun p => if p.1 = name then (p.1, p.2 ++ [device]) else p)
  else m ++ [(name, [device])]

/-- Build `all_contacts`: stripped non-empty contact names mapped to the
devices they appear on, in first-seen order. -/
def allContactsOf (data : List (Str × DeviceCats)) : List (Str × List Str) :=
  data.foldl (fun m e =>
    e.2.contacts.foldl (fun m2 c =>
      let name := strip c.name
      if name.isEmpty then m2 else acUpsert m2 name e.1) m) []

/-- The cross-device pass: contacts on more than one distinct device, key
people at flames 3, emitted when flames reach 2 or three or more devices
(`list(set(...))` modelled in first-occurrence order; only its length is
claim-relevant). -/
def crossScan : Nat → List (Str × List Str) → Nat × List Discovery
  | i, [] => (i, [])
  | i, e :: rest =>
    let uniq := dedupFirst e.2
    if 1 < uniq.length then
      let fl := if KEY_PEOPLE.any (fun kp => containsSub (lowerStr e.1) (lowerStr kp))
        then 3 else 1
      if 2 ≤ fl ∨ 3 ≤ uniq.length then
        let c := crossScan (i + 1) rest
        (c.1, crossDisc e.1 uniq fl (i + 1) :: c.2)
      else crossScan i rest
    else crossScan i rest

/-- `None`-aware device rendering used in dedup keys (f-string of the
`device_id` field). -/
def renderDev : Option Str → Str
  | some s => s
  | none => str "None"

/-- `timestamp[:10]`. -/
def tsDate (o : Option Str) : Str := (o.getD []).take 10

/-- The chat dedup key `{device}:{date}:{sorted tags joined by comma}`. -/
def chatKey (d : Discovery) : Str :=
  renderDev d.deviceId ++ ':' :: tsDate d.timestamp ++ ':' ::
    joinStr [','] (sortAscBy lexLt d.tags)

/-- The location dedup key `loc:{device}:{date}`. -/
def locKey (d : Discovery) : Str :=
  str "loc:" ++ renderDev d.deviceId ++ ':' :: tsDate d.timestamp

/-- `_deduplicate` with its shared `seen` key set: verified entries pass
through; unverified chat and location discoveries with truthy timestamps
are dropped when their key was already seen. -/
def dedupGo2 (seen : List Str) : List Discovery → List Discovery
  | [] => []
  | d :: rest =>
    if d.verified then d :: dedupGo2 seen rest
    else if (d.dataType == some (str "chats")) && tsTruthy d.timestamp then
      (if seen.contains (chatKey d) then dedupGo2 seen rest
       else d :: dedupGo2 (seen ++ [chatKey d]) rest)
    else if (d.dataType == some (str "locations")) && tsTruthy d.timestamp then
      (if seen.contains (locKey d) then dedupGo2 seen rest
       else d :: dedupGo2 (seen ++ [locKey d]) rest)
    else d :: dedupGo2 seen rest

/-- `discovery_engine._deduplicate`. -/
def dedupDiscoveries (l : List Discovery) : List Discovery := dedupGo2 [] l

/-- `discovery_engine.scan_discoveries`: verified seed, per-device scan,
cross-device pass, deduplication. -/
def scanDiscoveries (data : List (Str × DeviceCats)) (dm : List (Str × Str)) :
    List Discovery :=
  let a := scanLoop dm 100 data
  let b := crossScan a.1 (allContactsOf data)
  dedupDiscoveries (VERIFIED_DISCOVERIES ++ a.2 ++ b.2)

/-! ### C2: keyword emission rules -/

/-- The spec-side emission rule for keyword scans: something matched and
the maximum matched tier reaches 2. -/
def specEmitsKeyword (mm : List Str × Nat) : Prop := mm.1 ≠ [] ∧ 2 ≤ mm.2

instance specEmitsKeywordDec (mm : List Str × Nat) : Decidable (specEmitsKeyword mm) :=
  inferInstanceAs (Decidable (mm.1 ≠ [] ∧ 2 ≤ mm.2))

/-- Keyword chat discoveries are the ones whose id starts with `chat-`
(date-triggered chat discoveries start with `date-`). -/
def isKwDisc (d : Discovery) : Bool := isPrefOf (str "chat-") d.id

lemma emitCond_iff (mm : List Str × Nat) :
    (!mm.1.isEmpty && decide (2 ≤ mm.2)) = true ↔ specEmitsKeyword mm := by
  unfold specEmitsKeyword
  constructor
  · intro h
    have h1 := andD h
    refine ⟨?_, of_decide_eq_true h1.2⟩
    intro hnil
    rw [hnil] at h1
    exact absurd h1.1 (by decide)
  · intro h
    refine andT ?_ (decide_eq_true h.2)
    cases hm : mm.1 with
    | nil => exact absurd hm h.1
    | cons a l => rfl

lemma chatDates_no_kw (device owner : Str) (m : ChatRec) (i : Nat)
    (ds : List (Str × Str × Nat)) :
    (chatDates device owner m i ds).2.filter isKwDisc = [] := by
  induction ds generalizing i with
  | nil => rfl
  | cons e rest ih =>
    rw [show chatDates device owner m i (e :: rest) =
      if !m.timestamp.isEmpty && isPrefOf e.1 m.timestamp then
        ((chatDates device owner m (i + 1) rest).1,
         chatDateDisc device owner m e.1 e.2.1 e.2.2 (i + 1) ::
           (chatDates device owner m (i + 1) rest).2)
      else chatDates device owner m i rest from rfl]
    split
    · exact ih (i + 1)
    · exact ih i

/-- C2: the claim fails at the searches section — the query `audit log`
matches only the tier-1 term `audit` (so the spec demands no discovery),
yet the scanner emits a discovery on any non-empty match: the emitted
record has flames 1 and tags `[audit]`. -/
theorem C2_tier1_search_emits :
    (searchMatches (str "audit log")).1 = [str "audit"] ∧
    (searchMatches (str "audit log")).2 = 1 ∧
    ((searchScan (str "joy-quinn") (str "Joy Quinn") 100
        [⟨str "audit log", str "2021-06-01T10:00:00", str "Safari"⟩]).2.map
      (fun d => (d.flames, d.tags))) = [(1, [str "audit"])] := by
  decide

/-- C2 (amended): per scanned record, the chats, emails and browsing
sections emit a keyword discovery exactly when a term matched with
maximum tier at least 2 (chats additionally skip bodies that are empty or
shorter than 5 characters), while the searches section emits whenever the
matched set (key terms plus suspicious patterns) is non-empty, with no
tier threshold; in every case the discovery's flames are the maximum
matched tier and its tags are the first five matched terms. -/
theorem C2_keyword_emission_rules (device owner : Str) (i : Nat)
    (m : ChatRec) (e : EmailRec) (s : SearchRec) (b : BrowseRec) :
    (((chatScan device owner i [m]).2.filter isKwDisc).map
        (fun d => (d.flames, d.tags)) =
      if m.body.isEmpty || decide (m.body.length < 5) then []
      else if specEmitsKeyword (chatTerms m.body) then
        [((chatTerms m.body).2, (chatTerms m.body).1.take 5)]
      else [])
    ∧ ((emailScan device owner i [e]).2.map (fun d => (d.flames, d.tags)) =
      if specEmitsKeyword (keyTerms (e.subject ++ ' ' :: e.preview)) then
        [((keyTerms (e.subject ++ ' ' :: e.preview)).2,
          (keyTerms (e.subject ++ ' ' :: e.preview)).1.take 5)]
      else [])
    ∧ ((browseScan device owner i [b]).2.map (fun d => (d.flames, d.tags)) =
      if specEmitsKeyword (keyTerms (b.title ++ ' ' :: b.url)) then
        [((keyTerms (b.title ++ ' ' :: b.url)).2,
          (keyTerms (b.title ++ ' ' :: b.url)).1.take 5)]
      else [])
    ∧ ((searchScan device owner i [s]).2.map (fun d => (d.flames, d.tags)) =
      if (searchMatches s.query).1 = [] then []
      else [((searchMatches s.query).2, (searchMatches s.query).1.take 5)]) := by
  refine ⟨?_, ?_, ?_, ?_⟩
  · rw [show chatScan device owner i [m] =
      if m.body.isEmpty || decide (m.body.length < 5) then (i, [])
      else ((chatDates device owner m (chatTermEmit device owner i m).1 CRITICAL_DATES).1,
        (chatTermEmit device owner i m).2 ++
          (chatDates device owner m (chatTermEmit device owner i m).1 CRITICAL_DATES).2 ++ [])
      from rfl]
    by_cases hg : (m.body.isEmpty || decide (m.body.length < 5)) = true
    · simp only [if_pos hg]
      exact rfl
    · simp only [if_neg hg]
      rw [List.append_nil, List.filter_append,
        chatDates_no_kw device owner m (chatTermEmit device owner i m).1 CRITICAL_DATES,
        List.append_nil]
      by_cases hc : specEmitsKeyword (chatTerms m.body)
      · have hb : (!(chatTerms m.body).1.isEmpty && decide (2 ≤ (chatTerms m.body).2)) = true :=
          (emitCond_iff _).mpr hc
        unfold chatTermEmit
        rw [hb, if_pos hc]
        exact rfl
      · have hb : (!(chatTerms m.body).1.isEmpty && decide (2 ≤ (chatTerms m.body).2)) = false := by
          cases hcond : (!(chatTerms m.body).1.isEmpty && decide (2 ≤ (chatTerms m.body).2)) with
          | false => rfl
          | true => exact absurd ((emitCond_iff _).mp hcond) hc
        unfold chatTermEmit
        rw [hb, if_neg hc]
        exact rfl
  · rw [show emailScan device owner i [e] =
      ((emailEmit device owner i e).1, (emailEmit device owner i e).2 ++ []) from rfl]
    by_cases hc : specEmitsKeyword (keyTerms (e.subject ++ ' ' :: e.preview))
    · have hb := (emitCond_iff (keyTerms (e.subject ++ ' ' :: e.preview))).mpr hc
      unfold emailEmit
      rw [hb, if_pos hc]
      exact rfl
    · have hb : (!(keyTerms (e.subject ++ ' ' :: e.preview)).1.isEmpty &&
          decide (2 ≤ (keyTerms (e.subject ++ ' ' :: e.preview)).2)) = false := by
        cases hcond : (!(keyTerms (e.subject ++ ' ' :: e.preview)).1.isEmpty &&
            decide (2 ≤ (keyTerms (e.subject ++ ' ' :: e.preview)).2)) with
        | false => rfl
        | true => exact absurd ((emitCond_iff _).mp hcond) hc
      unfold emailEmit
      rw [hb, if_neg hc]
      exact rfl
  · rw [show browseScan device owner i [b] =
      ((browseEmit device owner i b).1, (browseEmit device owner i b).2 ++ []) from rfl]
    by_cases hc : specEmitsKeyword (keyTerms (b.title ++ ' ' :: b.url))
    · have hb := (emitCond_iff (keyTerms (b.title ++ ' ' :: b.url))).mpr hc
      unfold browseEmit
      rw [hb, if_pos hc]
      exact rfl
    · have hb : (!(keyTerms (b.title ++ ' ' :: b.url)).1.isEmpty &&
          decide (2 ≤ (keyTerms (b.title ++ ' ' :: b.url)).2)) = false := by
        cases hcond : (!(keyTerms (b.title ++ ' ' :: b.url)).1.isEmpty &&
            decide (2 ≤ (keyTerms (b.title ++ ' ' :: b.url)).2)) with
        | false => rfl
        | true => exact absurd ((emitCond_iff _).mp hcond) hc
      unfold browseEmit
      rw [hb, if_neg hc]
      exact rfl
  · rw [show searchScan device owner i [s] =
      ((searchEmit device owner i s).1, (searchEmit device owner i s).2 ++ []) from rfl]
    by_cases hs : (searchMatches s.query).1 = []
    · have hb : (!(searchMatches s.query).1.isEmpty) = false := by rw [hs]; rfl
      unfold searchEmit
      rw [hb, if_pos hs]
      exact rfl
    · have hb : (!(searchMatches s.query).1.isEmpty) = true := by
        cases hm : (searchMatches s.query).1 with
        | nil => exact absurd hm hs
        | cons a l => rfl
      unfold searchEmit
      rw [hb, if_neg hs]
      exact rfl

/-! ### C3: one aggregate passwords discovery per device -/

/-- Selects passwords-type discoveries of the given device. -/
def pPass (dev : Str) (d : Discovery) : Bool :=
  (d.dataType == some (str "passwords")) && (d.deviceId == some dev)

lemma chatDates_no_pass (dev device owner : Str) (m : ChatRec) (i : Nat)
    (ds : List (Str × Str × Nat)) :
    (chatDates device owner m i ds).2.filter (pPass dev) = [] := by
  induction ds generalizing i with
  | nil => rfl
  | cons e rest ih =>
    rw [show chatDates device owner m i (e :: rest) =
      if !m.timestamp.isEmpty && isPrefOf e.1 m.timestamp then
        ((chatDates device owner m (i + 1) rest).1,
         chatDateDisc device owner m e.1 e.2.1 e.2.2 (i + 1) ::
           (chatDates device owner m (i + 1) rest).2)
      else chatDates device owner m i rest from rfl]
    split
    · exact ih (i + 1)
    · exact ih i

lemma chatTermEmit_no_pass (dev device owner : Str) (i : Nat) (m : ChatRec) :
    (chatTermEmit device owner i m).2.filter (pPass dev) = [] := by
  unfold chatTermEmit
  split
  · rfl
  · rfl

lemma chatScan_no_pass (dev device owner : Str) (i : Nat) (ms : List ChatRec) :
    (chatScan device owner i ms).2.filter (pPass dev) = [] := by
  induction ms generalizing i with
  | nil => rfl
  | cons m rest ih =>
    rw [show chatScan device owner i (m :: rest) =
      if m.body.isEmpty || decide (m.body.length < 5) then chatScan device owner i rest
      else ((chatScan device owner
          (chatDates device owner m (chatTermEmit device owner i m).1 CRITICAL_DATES).1 rest).1,
        (chatTermEmit device owner i m).2 ++
          (chatDates device owner m (chatTermEmit device owner i m).1 CRITICAL_DATES).2 ++
          (chatScan device owner
            (chatDates device owner m (chatTermEmit device owner i m).1 CRITICAL_DATES).1 rest).2)
      from rfl]
    split
    · exact ih i
    · dsimp only
      rw [List.filter_append, List.filter_append, chatTermEmit_no_pass, chatDates_no_pass, ih]
      rfl

lemma emailScan_no_pass (dev device owner : Str) (i : Nat) (es : List EmailRec) :
    (emailScan device owner i es).2.filter (pPass dev) = [] := by
  induction es generalizing i with
  | nil => rfl
  | cons e rest ih =>
    rw [show emailScan device owner i (e :: rest) =
      ((emailScan device owner (emailEmit device owner i e).1 rest).1,
       (emailEmit device owner i e).2 ++
         (emailScan device owner (emailEmit device owner i e).1 rest).2) from rfl]
    dsimp only
    rw [List.filter_append, show (emailEmit device owner i e).2.filter (pPass dev) = []
      from by unfold emailEmit; split; rfl; rfl, ih]
    rfl

lemma searchScan_no_pass (dev device owner : Str) (i : Nat) (ss : List SearchRec) :
    (searchScan device owner i ss).2.filter (pPass dev) = [] := by
  induction ss generalizing i with
  | nil => rfl
  | cons s rest ih =>
    rw [show searchScan device owner i (s :: rest) =
      ((searchScan device owner (searchEmit device owner i s).1 rest).1,
       (searchEmit device owner i s).2 ++
         (searchScan device owner (searchEmit device owner i s).1 rest).2) from rfl]
    dsimp only
    rw [List.filter_append, show (searchEmit device owner i s).2.filter (pPass dev) = []
      from by unfold searchEmit; split; rfl; rfl, ih]
    rfl

lemma browseScan_no_pass (dev device owner : Str) (i : Nat) (bs : List BrowseRec) :
    (browseScan device owner i bs).2.filter (pPass dev) = [] := by
  induction bs generalizing i with
  | nil => rfl
  | cons b rest ih =>
    rw [show browseScan device owner i (b :: rest) =
      ((browseScan device owner (browseEmit device owner i b).1 rest).1,
       (browseEmit device owner i b).2 ++
         (browseScan device owner (browseEmit device owner i b).1 rest).2) from rfl]
    dsimp only
    rw [List.filter_append, show (browseEmit device owner i b).2.filter (pPass dev) = []
      from by unfold browseEmit; split; rfl; rfl, ih]
    rfl

lemma locScan_no_pass (dev device owner : Str) (i : Nat) (ls : List LocRec) :
    (locScan device owner i ls).2.filter (pPass dev) = [] := by
  induction ls generalizing i with
  | nil => rfl
  | cons loc rest ih =>
    rw [show locScan device owner i (loc :: rest) =
      match firstDate loc.timestamp CRITICAL_DATES with
      | some e => ((locScan device owner (i + 1) rest).1,
          locDisc device owner loc e.1 e.2.1 e.2.2 (i + 1) ::
            (locScan device owner (i + 1) rest).2)
      | none => locScan device owner i rest from rfl]
    split
    · exact ih (i + 1)
    · exact ih i

lemma callScan_no_pass (dev device owner : Str) (i : Nat) (cs : List CallRec) :
    (callScan device owner i cs).2.filter (pPass dev) = [] := by
  induction cs generalizing i with
  | nil => rfl
  | cons call rest ih =>
    rw [show callScan device owner i (call :: rest) =
      match firstDate call.timestamp CRITICAL_DATES with
      | some e => ((callScan device owner (i + 1) rest).1,
          callDisc device owner call e.1 e.2.1 e.2.2 (i + 1) ::
            (callScan device owner (i + 1) rest).2)
      | none => callScan device owner i rest from rfl]
    split
    · exact ih (i + 1)
    · exact ih i

lemma crossScan_no_pass (dev : Str) (i : Nat) (gs : List (Str × List Str)) :
    (crossScan i gs).2.filter (pPass dev) = [] := by
  induction gs generalizing i with
  | nil => rfl
  | cons e rest ih =>
    rw [show crossScan i (e :: rest) =
      if 1 < (dedupFirst e.2).length then
        (if 2 ≤ (if KEY_PEOPLE.any (fun kp => containsSub (lowerStr e.1) (lowerStr kp))
              then 3 else 1) ∨ 3 ≤ (dedupFirst e.2).length then
          ((crossScan (i + 1) rest).1,
           crossDisc e.1 (dedupFirst e.2)
             (if KEY_PEOPLE.any (fun kp => containsSub (lowerStr e.1) (lowerStr kp))
              then 3 else 1) (i + 1) :: (crossScan (i + 1) rest).2)
        else crossScan i rest)
      else crossScan i rest from rfl]
    split
    · split
      · split
        · exact ih (i + 1)
        · exact ih i
      · split
        · exact ih (i + 1)
        · exact ih i
    · exact ih i

lemma verified_no_pass (dev : Str) :
    VERIFIED_DISCOVERIES.filter (pPass dev) = [] := rfl

lemma passScan_self (device owner : Str) (i : Nat) (ps : List PassRec) (h : ps ≠ []) :
    (passScan device owner i ps).2.filter (pPass device) =
      [passDisc device owner ps (i + 1)] := by
  cases hp : ps with
  | nil => exact absurd hp h
  | cons a l =>
    show List.filter (pPass device) [passDisc device owner (a :: l) (i + 1)] =
      [passDisc device owner (a :: l) (i + 1)]
    rw [List.filter_cons,
      show pPass device (passDisc device owner (a :: l) (i + 1)) =
        (some device == some device) from rfl,
      beq_self_eq_true]
    rfl

lemma passScan_other (dev device owner : Str) (i : Nat) (ps : List PassRec)
    (h : dev ≠ device) :
    (passScan device owner i ps).2.filter (pPass dev) = [] := by
  unfold passScan
  split
  · rfl
  · show List.filter (pPass dev) [passDisc device owner ps (i + 1)] = []
    rw [List.filter_cons,
      show pPass dev (passDisc device owner ps (i + 1)) =
        (some device == some dev) from rfl,
      beq_eq_false_iff_ne.mpr (fun hh : some device = some dev =>
        h (Option.some.inj hh).symm)]
    rfl

lemma scanDevice_no_pass (dev : Str) (dm : List (Str × Str)) (i : Nat) (device : Str)
    (cats : DeviceCats) (h : dev ≠ device) :
    (scanDevice dm i device cats).2.filter (pPass dev) = [] := by
  unfold scanDevice
  dsimp only
  rw [List.filter_append, List.filter_append, List.filter_append, List.filter_append,
    List.filter_append, List.filter_append,
    chatScan_no_pass, emailScan_no_pass, searchScan_no_pass,
    passScan_other dev device _ _ _ h,
    locScan_no_pass, callScan_no_pass, browseScan_no_pass]
  rfl

lemma scanDevice_pass_self (dm : List (Str × Str)) (i : Nat) (device : Str)
    (cats : DeviceCats) (hps : cats.passwords ≠ []) :
    ∃ j, (scanDevice dm i device cats).2.filter (pPass device) =
      [passDisc device ((alookup dm device).getD device) cats.passwords j] := by
  refine ⟨(searchScan device ((alookup dm device).getD device)
      (emailScan device ((alookup dm device).getD device)
        (chatScan device ((alookup dm device).getD device) i cats.chats).1 cats.emails).1
      cats.searches).1 + 1, ?_⟩
  · unfold scanDevice
    dsimp only
    rw [List.filter_append, List.filter_append, List.filter_append, List.filter_append,
      List.filter_append, List.filter_append,
      chatScan_no_pass, emailScan_no_pass, searchScan_no_pass,
      passScan_self _ _ _ _ hps,
      locScan_no_pass, callScan_no_pass, browseScan_no_pass]
    rfl

lemma scanLoop_no_pass (dev : Str) (dm : List (Str × Str)) (i : Nat)
    (entries : List (Str × DeviceCats)) (h : ∀ e ∈ entries, e.1 ≠ dev) :
    (scanLoop dm i entries).2.filter (pPass dev) = [] := by
  induction entries generalizing i with
  | nil => rfl
  | cons e rest ih =>
    rw [show scanLoop dm i (e :: rest) =
      ((scanLoop dm (scanDevice dm i e.1 e.2).1 rest).1,
       (scanDevice dm i e.1 e.2).2 ++ (scanLoop dm (scanDevice dm i e.1 e.2).1 rest).2)
      from rfl]
    dsimp only
    rw [List.filter_append,
      scanDevice_no_pass dev dm i e.1 e.2 (Ne.symm (h e (List.mem_cons_self e rest))),
      ih (scanDevice dm i e.1 e.2).1 (fun x hx => h x (List.mem_cons_of_mem e hx))]
    rfl

lemma scanLoop_pass (dm : List (Str × Str)) (i : Nat)
    (entries : List (Str × DeviceCats)) (dev : Str) (cats : DeviceCats)
    (hnd : (entries.map Prod.fst).Nodup)
    (hmem : (dev, cats) ∈ entries) (hps : cats.passwords ≠ []) :
    ∃ j, (scanLoop dm i entries).2.filter (pPass dev) =
      [passDisc dev ((alookup dm dev).getD dev) cats.passwords j] := by
  induction entries generalizing i with
  | nil => cases hmem
  | cons e rest ih =>
    obtain ⟨d0, c0⟩ := e
    rw [List.map_cons] at hnd
    have hnd2 := List.nodup_cons.mp hnd
    rcases List.mem_cons.mp hmem with heq | hrest
    · have hd : dev = d0 := congrArg Prod.fst heq
      have hc : cats = c0 := congrArg Prod.snd heq
      subst hd
      subst hc
      obtain ⟨j, hj⟩ := scanDevice_pass_self dm i dev cats hps
      refine ⟨j, ?_⟩
      rw [show scanLoop dm i ((dev, cats) :: rest) =
        ((scanLoop dm (scanDevice dm i dev cats).1 rest).1,
         (scanDevice dm i dev cats).2 ++
           (scanLoop dm (scanDevice dm i dev cats).1 rest).2) from rfl]
      dsimp only
      rw [List.filter_append, hj,
        scanLoop_no_pass dev dm _ rest
          (fun x hx hx1 => hnd2.1 (hx1 ▸ List.mem_map.mpr ⟨x, hx, rfl⟩))]
      rfl
    · have hne : dev ≠ d0 := by
        intro hh
        exact hnd2.1 (hh ▸ List.mem_map.mpr ⟨(dev, cats), hrest, rfl⟩)
      obtain ⟨j, hj⟩ := ih (scanDevice dm i d0 c0).1 hnd2.2 hrest
      refine ⟨j, ?_⟩
      rw [show scanLoop dm i ((d0, c0) :: rest) =
        ((scanLoop dm (scanDevice dm i d0 c0).1 rest).1,
         (scanDevice dm i d0 c0).2 ++
           (scanLoop dm (scanDevice dm i d0 c0).1 rest).2) from rfl]
      dsimp only
      rw [List.filter_append, scanDevice_no_pass dev dm i d0 c0 hne, hj]
      rfl

lemma dedup_pass_filter (dev : Str) (seen : List Str) (l : List Discovery) :
    (dedupGo2 seen l).filter (pPass dev) = l.filter (pPass dev) := by
  induction l generalizing seen with
  | nil => rfl
  | cons d rest ih =>
    rw [show dedupGo2 seen (d :: rest) =
      if d.verified then d :: dedupGo2 seen rest
      else if (d.dataType == some (str "chats")) && tsTruthy d.timestamp then
        (if seen.contains (chatKey d) then dedupGo2 seen rest
         else d :: dedupGo2 (seen ++ [chatKey d]) rest)
      else if (d.dataType == some (str "locations")) && tsTruthy d.timestamp then
        (if seen.contains (locKey d) then dedupGo2 seen rest
         else d :: dedupGo2 (seen ++ [locKey d]) rest)
      else d :: dedupGo2 seen rest from rfl]
    split
    · rw [List.filter_cons, List.filter_cons, ih seen]
    · split
      next hc =>
        have hdt : d.dataType = some (str "chats") := eq_of_beq (andD hc).1
        have hp : pPass dev d = false := by
          unfold pPass
          rw [hdt]
          rfl
        split
        · rw [List.filter_cons, hp]
          exact ih seen
        · rw [List.filter_cons, List.filter_cons, hp, ih (seen ++ [chatKey d])]
      next hc =>
        split
        next hl =>
          have hdt : d.dataType = some (str "locations") := eq_of_beq (andD hl).1
          have hp : pPass dev d = false := by
            unfold pPass
            rw [hdt]
            rfl
          split
          · rw [List.filter_cons, hp]
            exact ih seen
          · rw [List.filter_cons, List.filter_cons, hp, ih (seen ++ [locKey d])]
        next hl =>
          rw [List.filter_cons, List.filter_cons, ih seen]

lemma isPrefOf_self_append (p t : Str) : isPrefOf p (p ++ t) = true := by
  induction p with
  | nil => rfl
  | cons a as ih =>
    show (a == a && isPrefOf as (as ++ t)) = true
    exact andT (beq_self_eq_true a) ih

lemma containsSub_mid (pre pat t : Str) : containsSub (pre ++ (pat ++ t)) pat = true := by
  induction pre with
  | nil =>
    cases pat with
    | nil =>
      cases t with
      | nil => rfl
      | cons c r => rfl
    | cons p ps =>
      show (isPrefOf (p :: ps) (p :: (ps ++ t)) || containsSub (ps ++ t) (p :: ps)) = true
      rw [show isPrefOf (p :: ps) (p :: (ps ++ t)) = true from isPrefOf_self_append (p :: ps) t]
      rfl
  | cons c pre ih =>
    show (isPrefOf pat (c :: (pre ++ (pat ++ t))) || containsSub (pre ++ (pat ++ t)) pat) = true
    rw [ih, Bool.or_true]

lemma passDisc_mentions_count (device owner : Str) (ps : List PassRec) (j : Nat) :
    containsSub (passDisc device owner ps j).content (natToStr ps.length) = true := by
  show containsSub (str "Found " ++ natToStr ps.length ++
    str " stored passwords/credentials.\nSamples:\n" ++
    joinStr (str "\n") (((ps.take 10).map (fun p =>
      ((p.content.getD (p.service.getD [])).take 80))).map (fun s => str "  • " ++ s)))
    (natToStr ps.length) = true
  rw [List.append_assoc, List.append_assoc]
  exact containsSub_mid (str "Found ") (natToStr ps.length) _

/-- C3: in a scan of a record store whose device keys are distinct (a
Python dict), a device whose passwords category is non-empty yields
exactly one passwords-type discovery, namely the aggregate one, with
flames 2, category `Passwords`, and a content mentioning the record
count. -/
theorem C3_passwords_one_aggregate (data : List (Str × DeviceCats))
    (dm : List (Str × Str)) (dev : Str) (cats : DeviceCats)
    (hnd : (data.map Prod.fst).Nodup)
    (hmem : (dev, cats) ∈ data)
    (hps : cats.passwords ≠ []) :
    ((scanDiscoveries data dm).filter (pPass dev)).length = 1 ∧
    (∃ j, (scanDiscoveries data dm).filter (pPass dev) =
      [passDisc dev ((alookup dm dev).getD dev) cats.passwords j]) ∧
    ∀ d ∈ (scanDiscoveries data dm).filter (pPass dev),
      d.flames = 2 ∧ d.category = str "Passwords" ∧
      containsSub d.content (natToStr cats.passwords.length) = true := by
  obtain ⟨j, hj⟩ := scanLoop_pass dm 100 data dev cats hnd hmem hps
  have hmain : (scanDiscoveries data dm).filter (pPass dev) =
      [passDisc dev ((alookup dm dev).getD dev) cats.passwords j] := by
    show (dedupGo2 [] (VERIFIED_DISCOVERIES ++ (scanLoop dm 100 data).2 ++
      (crossScan (scanLoop dm 100 data).1 (allContactsOf data)).2)).filter (pPass dev) = _
    rw [dedup_pass_filter, List.filter_append, List.filter_append,
      verified_no_pass, hj, crossScan_no_pass]
    rfl
  refine ⟨by rw [hmain]; rfl, ⟨j, hmain⟩, ?_⟩
  intro d hd
  rw [hmain] at hd
  have hd2 : d = passDisc dev ((alookup dm dev).getD dev) cats.passwords j :=
    List.mem_singleton.mp hd
  subst hd2
  exact ⟨rfl, rfl, passDisc_mentions_count dev _ cats.passwords j⟩

/-- Three stored-credential records. -/
def c3Cats : DeviceCats :=
  ⟨[], [], [],
   [⟨some (str "gmail password hunter2"), none⟩,
    ⟨none, some (str "bank")⟩,
    ⟨some (str "wifi: hunter3"), none⟩],
   [], [], [], []⟩

def c3Data : List (Str × DeviceCats) := [(str "joy-quinn", c3Cats)]

def c3Map : List (Str × Str) := [(str "joy-quinn", str "Joy Quinn")]

/-- Witness for C3: a credential category with 3 entries yields exactly
one tier-2 passwords discovery whose content mentions `3`. -/
theorem C3_passwords_one_aggregate_witness :
    ((scanDiscoveries c3Data c3Map).filter (pPass (str "joy-quinn"))).length = 1 ∧
    (∃ j, (scanDiscoveries c3Data c3Map).filter (pPass (str "joy-quinn")) =
      [passDisc (str "joy-quinn")
        ((alookup c3Map (str "joy-quinn")).getD (str "joy-quinn")) c3Cats.passwords j]) ∧
    ∀ d ∈ (scanDiscoveries c3Data c3Map).filter (pPass (str "joy-quinn")),
      d.flames = 2 ∧ d.category = str "Passwords" ∧
      containsSub d.content (natToStr c3Cats.passwords.length) = true :=
  C3_passwords_one_aggregate c3Data c3Map (str "joy-quinn") c3Cats
    (by decide) (by decide) (by decide)

/-! ### C4: deduplication -/

/-- An unverified chat discovery with a truthy timestamp (the ones the
dedup pass keys). -/
def isChatD (d : Discovery) : Bool :=
  !d.verified && ((d.dataType == some (str "chats")) && tsTruthy d.timestamp)

/-- An unverified location discovery with a truthy timestamp. -/
def isLocD (d : Discovery) : Bool :=
  !d.verified && ((d.dataType == some (str "locations")) && tsTruthy d.timestamp)

/-- The spec-side duplication group: device, calendar date, tag set
(as the sorted tag list). -/
def discGroup (d : Discovery) : Str × Str × List Str :=
  (renderDev d.deviceId, tsDate d.timestamp, sortAscBy lexLt d.tags)

lemma bool_false_of_not {b : Bool} (h : ¬(b = true)) : b = false := by
  cases hb : b with
  | true => exact absurd hb h
  | false => rfl

lemma mem_to_contains {a : Str} {l : List Str} (h : a ∈ l) : l.contains a = true :=
  List.elem_eq_true_of_mem h

lemma contains_to_mem {a : Str} {l : List Str} (h : l.contains a = true) : a ∈ l :=
  List.mem_of_elem_eq_true h

lemma isChatD_of_branch {d : Discovery} (hv : d.verified = false)
    (hc : ((d.dataType == some (str "chats")) && tsTruthy d.timestamp) = true) :
    isChatD d = true := by
  unfold isChatD
  rw [hv]
  exact hc

lemma isLocD_of_branch {d : Discovery} (hv : d.verified = false)
    (hl : ((d.dataType == some (str "locations")) && tsTruthy d.timestamp) = true) :
    isLocD d = true := by
  unfold isLocD
  rw [hv]
  exact hl

lemma isChatD_false_of_verified {d : Discovery} (hv : d.verified = true) :
    isChatD d = false := by
  unfold isChatD
  rw [hv]
  rfl

lemma isLocD_false_of_verified {d : Discovery} (hv : d.verified = true) :
    isLocD d = false := by
  unfold isLocD
  rw [hv]
  rfl

lemma isChatD_false_of_cond {d : Discovery}
    (hc : ((d.dataType == some (str "chats")) && tsTruthy d.timestamp) = false) :
    isChatD d = false := by
  unfold isChatD
  rw [hc]
  exact Bool.and_false _

lemma isLocD_false_of_cond {d : Discovery}
    (hl : ((d.dataType == some (str "locations")) && tsTruthy d.timestamp) = false) :
    isLocD d = false := by
  unfold isLocD
  rw [hl]
  exact Bool.and_false _

lemma isChatD_false_of_loccond {d : Discovery}
    (hl : ((d.dataType == some (str "locations")) && tsTruthy d.timestamp) = true) :
    isChatD d = false := by
  have hdt : d.dataType = some (str "locations") := eq_of_beq (andD hl).1
  unfold isChatD
  rw [hdt, show ((some (str "locations") : Option Str) == some (str "chats")) = false
    from rfl, Bool.false_and, Bool.and_false]

lemma isLocD_false_of_chatcond {d : Discovery}
    (hc : ((d.dataType == some (str "chats")) && tsTruthy d.timestamp) = true) :
    isLocD d = false := by
  have hdt : d.dataType = some (str "chats") := eq_of_beq (andD hc).1
  unfold isLocD
  rw [hdt, show ((some (str "chats") : Option Str) == some (str "locations")) = false
    from rfl, Bool.false_and, Bool.and_false]

/-- The filter selecting the chat-dedup group of key `k`. -/
def pChat (k : Str) (d : Discovery) : Bool := isChatD d && (chatKey d == k)

/-- The filter selecting the location-dedup group of key `k`. -/
def pLoc (k : Str) (d : Discovery) : Bool := isLocD d && (locKey d == k)

lemma dedup_step (seen : List Str) (d : Discovery) (rest : List Discovery) :
    dedupGo2 seen (d :: rest) =
      if d.verified then d :: dedupGo2 seen rest
      else if (d.dataType == some (str "chats")) && tsTruthy d.timestamp then
        (if seen.contains (chatKey d) then dedupGo2 seen rest
         else d :: dedupGo2 (seen ++ [chatKey d]) rest)
      else if (d.dataType == some (str "locations")) && tsTruthy d.timestamp then
        (if seen.contains (locKey d) then dedupGo2 seen rest
         else d :: dedupGo2 (seen ++ [locKey d]) rest)
      else d :: dedupGo2 seen rest := rfl

lemma dedup_chat_absent (k : Str) (seen : List Str) (l : List Discovery)
    (hks : k ∈ seen) :
    (dedupGo2 seen l).filter (pChat k) = [] := by
  induction l generalizing seen with
  | nil => rfl
  | cons d rest ih =>
    rw [dedup_step]
    split
    next hv =>
      rw [List.filter_cons,
        show pChat k d = false from by
          unfold pChat
          rw [isChatD_false_of_verified hv]
          rfl]
      exact ih seen hks
    next hv =>
      split
      next hc =>
        split
        next hs => exact ih seen hks
        next hs =>
          have hne : (chatKey d == k) = false := by
            cases hck : (chatKey d == k) with
            | false => rfl
            | true =>
              rw [eq_of_beq hck] at hs
              rw [mem_to_contains hks] at hs
              exact absurd hs (by decide)
          rw [List.filter_cons,
            show pChat k d = false from by unfold pChat; rw [hne, Bool.and_false]]
          exact ih (seen ++ [chatKey d]) (List.mem_append_left _ hks)
      next hc =>
        split
        next hl =>
          split
          next hs => exact ih seen hks
          next hs =>
            rw [List.filter_cons,
              show pChat k d = false from by
                unfold pChat
                rw [isChatD_false_of_loccond hl]
                rfl]
            exact ih (seen ++ [locKey d]) (List.mem_append_left _ hks)
        next hl =>
          rw [List.filter_cons,
            show pChat k d = false from by
              unfold pChat
              rw [isChatD_false_of_cond (bool_false_of_not hc)]
              rfl]
          exact ih seen hks

lemma dedup_loc_absent (k : Str) (seen : List Str) (l : List Discovery)
    (hks : k ∈ seen) :
    (dedupGo2 seen l).filter (pLoc k) = [] := by
  induction l generalizing seen with
  | nil => rfl
  | cons d rest ih =>
    rw [dedup_step]
    split
    next hv =>
      rw [List.filter_cons,
        show pLoc k d = false from by
          unfold pLoc
          rw [isLocD_false_of_verified hv]
          rfl]
      exact ih seen hks
    next hv =>
      split
      next hc =>
        split
        next hs => exact ih seen hks
        next hs =>
          rw [List.filter_cons,
            show pLoc k d = false from by
              unfold pLoc
              rw [isLocD_false_of_chatcond hc]
              rfl]
          exact ih (seen ++ [chatKey d]) (List.mem_append_left _ hks)
      next hc =>
        split
        next hl =>
          split
          next hs => exact ih seen hks
          next hs =>
            have hne : (locKey d == k) = false := by
              cases hck : (locKey d == k) with
              | false => rfl
              | true =>
                rw [eq_of_beq hck] at hs
                rw [mem_to_contains hks] at hs
                exact absurd hs (by decide)
            rw [List.filter_cons,
              show pLoc k d = false from by unfold pLoc; rw [hne, Bool.and_false]]
            exact ih (seen ++ [locKey d]) (List.mem_append_left _ hks)
        next hl =>
          rw [List.filter_cons,
            show pLoc k d = false from by
              unfold pLoc
              rw [isLocD_false_of_cond (bool_false_of_not hl)]
              rfl]
          exact ih seen hks

lemma dedup_chat_take (k : Str) (seen : List Str) (l : List Discovery)
    (hks : k ∉ seen)
    (hloc : ∀ d ∈ l, isLocD d = true → locKey d ≠ k) :
    (dedupGo2 seen l).filter (pChat k) = (l.filter (pChat k)).take 1 := by
  induction l generalizing seen with
  | nil => rfl
  | cons d rest ih =>
    rw [dedup_step]
    have hlocrest : ∀ x ∈ rest, isLocD x = true → locKey x ≠ k :=
      fun x hx => hloc x (List.mem_cons_of_mem d hx)
    split
    next hv =>
      have hf : pChat k d = false := by
        unfold pChat
        rw [isChatD_false_of_verified hv]
        rfl
      rw [List.filter_cons, List.filter_cons, hf]
      exact ih seen hks hlocrest
    next hv =>
      have hvf : d.verified = false := bool_false_of_not hv
      split
      next hc =>
        have hcd : isChatD d = true := isChatD_of_branch hvf hc
        split
        next hs =>
          have hne : (chatKey d == k) = false := by
            cases hck : (chatKey d == k) with
            | false => rfl
            | true => exact absurd (eq_of_beq hck ▸ contains_to_mem hs) hks
          rw [List.filter_cons, show pChat k d = false from by
            unfold pChat
            rw [hne, Bool.and_false]]
          exact ih seen hks hlocrest
        next hs =>
          cases hck : (chatKey d == k) with
          | true =>
            have hf : pChat k d = true := by
              unfold pChat
              rw [hcd, hck]
              rfl
            rw [List.filter_cons, List.filter_cons, hf,
              dedup_chat_absent k (seen ++ [chatKey d]) rest
                (List.mem_append_right seen
                  (by rw [eq_of_beq hck]; exact List.mem_singleton_self k))]
            rfl
          | false =>
            have hf : pChat k d = false := by
              unfold pChat
              rw [hck, Bool.and_false]
            have hks2 : k ∉ seen ++ [chatKey d] := by
              intro hmem
              rcases List.mem_append.mp hmem with h1 | h2
              · exact hks h1
              · have h3 : k = chatKey d := List.mem_singleton.mp h2
                rw [h3, beq_self_eq_true] at hck
                exact absurd hck (by decide)
            rw [List.filter_cons, List.filter_cons, hf]
            exact ih (seen ++ [chatKey d]) hks2 hlocrest
      next hc =>
        split
        next hl =>
          have hld : isLocD d = true := isLocD_of_branch hvf hl
          have hf : pChat k d = false := by
            unfold pChat
            rw [isChatD_false_of_loccond hl]
            rfl
          split
          next hs =>
            rw [List.filter_cons, hf]
            exact ih seen hks hlocrest
          next hs =>
            have hks2 : k ∉ seen ++ [locKey d] := by
              intro hmem
              rcases List.mem_append.mp hmem with h1 | h2
              · exact hks h1
              · exact hloc d (List.mem_cons_self d rest) hld (List.mem_singleton.mp h2).symm
            rw [List.filter_cons, List.filter_cons, hf]
            exact ih (seen ++ [locKey d]) hks2 hlocrest
        next hl =>
          have hf : pChat k d = false := by
            unfold pChat
            rw [isChatD_false_of_cond (bool_false_of_not hc)]
            rfl
          rw [List.filter_cons, List.filter_cons, hf]
          exact ih seen hks hlocrest

lemma dedup_loc_take (k : Str) (seen : List Str) (l : List Discovery)
    (hks : k ∉ seen)
    (hchat : ∀ d ∈ l, isChatD d = true → chatKey d ≠ k) :
    (dedupGo2 seen l).filter (pLoc k) = (l.filter (pLoc k)).take 1 := by
  induction l generalizing seen with
  | nil => rfl
  | cons d rest ih =>
    rw [dedup_step]
    have hchatrest : ∀ x ∈ rest, isChatD x = true → chatKey x ≠ k :=
      fun x hx => hchat x (List.mem_cons_of_mem d hx)
    split
    next hv =>
      have hf : pLoc k d = false := by
        unfold pLoc
        rw [isLocD_false_of_verified hv]
        rfl
      rw [List.filter_cons, List.filter_cons, hf]
      exact ih seen hks hchatrest
    next hv =>
      have hvf : d.verified = false := bool_false_of_not hv
      split
      next hc =>
        have hcd : isChatD d = true := isChatD_of_branch hvf hc
        have hf : pLoc k d = false := by
          unfold pLoc
          rw [isLocD_false_of_chatcond hc]
          rfl
        split
        next hs =>
          rw [List.filter_cons, hf]
          exact ih seen hks hchatrest
        next hs =>
          have hks2 : k ∉ seen ++ [chatKey d] := by
            intro hmem
            rcases List.mem_append.mp hmem with h1 | h2
            · exact hks h1
            · exact hchat d (List.mem_cons_self d rest) hcd (List.mem_singleton.mp h2).symm
          rw [List.filter_cons, List.filter_cons, hf]
          exact ih (seen ++ [chatKey d]) hks2 hchatrest
      next hc =>
        split
        next hl =>
          have hld : isLocD d = true := isLocD_of_branch hvf hl
          split
          next hs =>
            have hne : (locKey d == k) = false := by
              cases hck : (locKey d == k) with
              | false => rfl
              | true => exact absurd (eq_of_beq hck ▸ contains_to_mem hs) hks
            rw [List.filter_cons, show pLoc k d = false from by
              unfold pLoc
              rw [hne, Bool.and_false]]
            exact ih seen hks hchatrest
          next hs =>
            cases hck : (locKey d == k) with
            | true =>
              have hf : pLoc k d = true := by
                unfold pLoc
                rw [hld, hck]
                rfl
              rw [List.filter_cons, List.filter_cons, hf,
                dedup_loc_absent k (seen ++ [locKey d]) rest
                  (List.mem_append_right seen
                    (by rw [eq_of_beq hck]; exact List.mem_singleton_self k))]
              rfl
            | false =>
              have hf : pLoc k d = false := by
                unfold pLoc
                rw [hck, Bool.and_false]
              have hks2 : k ∉ seen ++ [locKey d] := by
                intro hmem
                rcases List.mem_append.mp hmem with h1 | h2
                · exact hks h1
                · have h3 : k = locKey d := List.mem_singleton.mp h2
                  rw [h3, beq_self_eq_true] at hck
                  exact absurd hck (by decide)
              rw [List.filter_cons, List.filter_cons, hf]
              exact ih (seen ++ [locKey d]) hks2 hchatrest
        next hl =>
          have hf : pLoc k d = false := by
            unfold pLoc
            rw [isLocD_false_of_cond (bool_false_of_not hl)]
            rfl
          rw [List.filter_cons, List.filter_cons, hf]
          exact ih seen hks hchatrest

/-- The verified flag as a filter. -/
def pVer (d : Discovery) : Bool := d.verified

lemma dedup_verified_filter (seen : List Str) (l : List Discovery) :
    (dedupGo2 seen l).filter pVer = l.filter pVer := by
  induction l generalizing seen with
  | nil => rfl
  | cons d rest ih =>
    rw [dedup_step]
    split
    next hv => rw [List.filter_cons, List.filter_cons, ih seen]
    next hv =>
      have hvf : pVer d = false := bool_false_of_not hv
      split
      next hc =>
        split
        next hs =>
          rw [List.filter_cons, hvf]
          exact ih seen
        next hs => rw [List.filter_cons, List.filter_cons, hvf, ih (seen ++ [chatKey d])]
      next hc =>
        split
        next hl =>
          split
          next hs =>
            rw [List.filter_cons, hvf]
            exact ih seen
          next hs => rw [List.filter_cons, List.filter_cons, hvf, ih (seen ++ [locKey d])]
        next hl => rw [List.filter_cons, List.filter_cons, ih seen]

lemma dedupGo2_sublist (seen : List Str) (l : List Discovery) :
    (dedupGo2 seen l).Sublist l := by
  induction l generalizing seen with
  | nil => exact List.nil_sublist []
  | cons d rest ih =>
    rw [dedup_step]
    split
    · exact List.Sublist.cons₂ d (ih seen)
    · split
      · split
        · exact List.Sublist.cons d (ih seen)
        · exact List.Sublist.cons₂ d (ih (seen ++ [chatKey d]))
      · split
        · split
          · exact List.Sublist.cons d (ih seen)
          · exact List.Sublist.cons₂ d (ih (seen ++ [locKey d]))
        · exact List.Sublist.cons₂ d (ih seen)

/-- C4: `_deduplicate` keeps every verified discovery (as a filter
equality: with order and multiplicity), and, provided the dedup keys
separate exactly the spec groups — chat keys agree iff device, date and
sorted tag set agree (h1), likewise for location keys (h2), and no chat
key collides with a location key (h3), all true of engine-generated
lists — it collapses each chat group and each location group (same
device, calendar date and tag set) to its first element in generation
order. -/
theorem C4_dedup_collapses (l : List Discovery)
    (h1 : ∀ d1 ∈ l, ∀ d2 ∈ l, isChatD d1 = true → isChatD d2 = true →
      (chatKey d1 = chatKey d2 ↔ discGroup d1 = discGroup d2))
    (h2 : ∀ d1 ∈ l, ∀ d2 ∈ l, isLocD d1 = true → isLocD d2 = true →
      (locKey d1 = locKey d2 ↔ discGroup d1 = discGroup d2))
    (h3 : ∀ d1 ∈ l, ∀ d2 ∈ l, isChatD d1 = true → isLocD d2 = true →
      chatKey d1 ≠ locKey d2) :
    (dedupDiscoveries l).filter pVer = l.filter pVer ∧
    (∀ d0 ∈ l, isChatD d0 = true →
      (dedupDiscoveries l).filter (fun d => isChatD d && decide (discGroup d = discGroup d0)) =
        (l.filter (fun d => isChatD d && decide (discGroup d = discGroup d0))).take 1) ∧
    (∀ d0 ∈ l, isLocD d0 = true →
      (dedupDiscoveries l).filter (fun d => isLocD d && decide (discGroup d = discGroup d0)) =
        (l.filter (fun d => isLocD d && decide (discGroup d = discGroup d0))).take 1) := by
  refine ⟨dedup_verified_filter [] l, ?_, ?_⟩
  · intro d0 hd0 hc0
    have hcong : ∀ d ∈ l,
        (isChatD d && decide (discGroup d = discGroup d0)) = pChat (chatKey d0) d := by
      intro d hd
      show (isChatD d && decide (discGroup d = discGroup d0)) =
        (isChatD d && (chatKey d == chatKey d0))
      cases hcd : isChatD d with
      | false => rfl
      | true =>
        have hiff := h1 d hd d0 hd0 hcd hc0
        by_cases hg : discGroup d = discGroup d0
        · rw [decide_eq_true hg, show (chatKey d == chatKey d0) = true from by
            rw [hiff.mpr hg]
            exact beq_self_eq_true _]
        · rw [decide_eq_false hg, show (chatKey d == chatKey d0) = false from by
            cases hck : (chatKey d == chatKey d0) with
            | false => rfl
            | true => exact absurd (hiff.mp (eq_of_beq hck)) hg]
    have hloc : ∀ d ∈ l, isLocD d = true → locKey d ≠ chatKey d0 :=
      fun d hd hld => (h3 d0 hd0 d hd hc0 hld).symm
    calc (dedupDiscoveries l).filter (fun d => isChatD d && decide (discGroup d = discGroup d0))
        = (dedupDiscoveries l).filter (pChat (chatKey d0)) :=
          List.filter_congr (fun d hd => hcong d ((dedupGo2_sublist [] l).subset hd))
      _ = (l.filter (pChat (chatKey d0))).take 1 :=
          dedup_chat_take (chatKey d0) [] l (List.not_mem_nil _) hloc
      _ = (l.filter (fun d => isChatD d && decide (discGroup d = discGroup d0))).take 1 := by
          rw [List.filter_congr hcong]
  · intro d0 hd0 hl0
    have hcong : ∀ d ∈ l,
        (isLocD d && decide (discGroup d = discGroup d0)) = pLoc (locKey d0) d := by
      intro d hd
      show (isLocD d && decide (discGroup d = discGroup d0)) =
        (isLocD d && (locKey d == locKey d0))
      cases hcd : isLocD d with
      | false => rfl
      | true =>
        have hiff := h2 d hd d0 hd0 hcd hl0
        by_cases hg : discGroup d = discGroup d0
        · rw [decide_eq_true hg, show (locKey d == locKey d0) = true from by
            rw [hiff.mpr hg]
            exact beq_self_eq_true _]
        · rw [decide_eq_false hg, show (locKey d == locKey d0) = false from by
            cases hck : (locKey d == locKey d0) with
            | false => rfl
            | true => exact absurd (hiff.mp (eq_of_beq hck)) hg]
    have hchat : ∀ d ∈ l, isChatD d = true → chatKey d ≠ locKey d0 :=
      fun d hd hcd => h3 d hd d0 hd0 hcd hl0
    calc (dedupDiscoveries l).filter (fun d => isLocD d && decide (discGroup d = discGroup d0))
        = (dedupDiscoveries l).filter (pLoc (locKey d0)) :=
          List.filter_congr (fun d hd => hcong d ((dedupGo2_sublist [] l).subset hd))
      _ = (l.filter (pLoc (locKey d0))).take 1 :=
          dedup_loc_take (locKey d0) [] l (List.not_mem_nil _) hchat
      _ = (l.filter (fun d => isLocD d && decide (discGroup d = discGroup d0))).take 1 := by
          rw [List.filter_congr hcong]

/-- A verified entry, two chat discoveries in one group (same device,
date, tags) and two location discoveries in one group. -/
def c4List : List Discovery :=
  [⟨str "verified-x", str "T", str "Cross-Device", 3, none, str "Multiple",
    str "X", none, true, [str "defense"], none, none⟩,
   ⟨str "chat-dev-101", str "O: Message mentioning MCUA", str "Communications", 2,
    some (str "dev"), str "O", str "MCUA meets at noon",
    some (str "2021-05-25T10:00:00"), false, [str "MCUA"], some (str "chats"),
    some (str "Signal")⟩,
   ⟨str "chat-dev-102", str "O: Message mentioning MCUA", str "Communications", 2,
    some (str "dev"), str "O", str "MCUA meeting moved",
    some (str "2021-05-25T11:30:00"), false, [str "MCUA"], some (str "chats"),
    some (str "Signal")⟩,
   ⟨str "loc-dev-103", str "O: Location on Trusted Build Day (2021-05-25)",
    str "Locations", 3, some (str "dev"), str "O", str "Location: 123 Main St",
    some (str "2021-05-25T09:00:00"), false,
    [str "Trusted Build Day", str "location"], some (str "locations"), none⟩,
   ⟨str "loc-dev-104", str "O: Location on Trusted Build Day (2021-05-25)",
    str "Locations", 3, some (str "dev"), str "O", str "Location: 456 Oak Ave",
    some (str "2021-05-25T21:00:00"), false,
    [str "Trusted Build Day", str "location"], some (str "locations"), none⟩]

/-- Witness for C4 on `c4List`. -/
theorem C4_dedup_collapses_witness :
    (dedupDiscoveries c4List).filter pVer = c4List.filter pVer ∧
    (∀ d0 ∈ c4List, isChatD d0 = true →
      (dedupDiscoveries c4List).filter
          (fun d => isChatD d && decide (discGroup d = discGroup d0)) =
        (c4List.filter (fun d => isChatD d && decide (discGroup d = discGroup d0))).take 1) ∧
    (∀ d0 ∈ c4List, isLocD d0 = true →
      (dedupDiscoveries c4List).filter
          (fun d => isLocD d && decide (discGroup d = discGroup d0)) =
        (c4List.filter (fun d => isLocD d && decide (discGroup d = discGroup d0))).take 1) :=
  C4_dedup_collapses c4List (by decide) (by decide) (by decide)

/-! ### C1: edge weight vs. contribution counts -/

/-- Contacts for a concrete build: two unmatched names, each stored on the
devices of two distinct primaries (Joy Quinn and Wendi Woods). -/
def c1Contacts : List ContactIn :=
  [⟨str "John Smith", str "phone", str "Joy Quinn"⟩,
   ⟨str "John Smith", str "phone", str "Wendi Woods"⟩,
   ⟨str "Jane Roe", str "phone", str "Joy Quinn"⟩,
   ⟨str "Jane Roe", str "phone", str "Wendi Woods"⟩]

/-- C1: the claimed invariant — every edge weight equals the sum of the
edge's contribution counts — fails on a full build from `c1Contacts`: when
two shared contacts link the same pair of owners, step 6 of `build_network`
increments the existing `shared_contact` contribution's count without
incrementing the edge weight, so the Joy Quinn–Wendi Woods edge ends with
weight 1 but contribution counts summing to 2. -/
theorem C1_weight_contrib_mismatch :
    ∃ e ∈ (buildNetwork (fun s => s) [] c1Contacts [] [] []).edges,
      e.weight ≠ contribSum e.types ∧ e.weight = 1 ∧ contribSum e.types = 2 := by
  decide

/-! ### C9: unknown identifiers return empty/None -/

/-- C9: a device absent from both the cellebrite partitions and the AXIOM
index yields the empty page (no records, total 0), and a person id carried
by no node of the network yields `none` from `get_person_details`. -/
theorem C9_unknown_returns_empty (store : DataStore) (device : Str)
    (category : Option Str) (page perPage : Nat) (query dateFrom dateTo : Option Str)
    (net : Network) (personId : Str)
    (hdev1 : alookup store.cellebrite device = none)
    (hdev2 : alookup store.axiomIndex device = none)
    (hpid : ∀ n ∈ net.nodes, n.id ≠ personId) :
    dsGetDeviceData store device category page perPage query dateFrom dateTo =
      ⟨[], 0, page, perPage⟩ ∧
    getPersonDetails personId net = none := by
  constructor
  · unfold dsGetDeviceData
    rw [hdev1]
    dsimp only
    rw [hdev2]
  · have hfind : net.nodes.find? (fun n => n.id == personId) = none := by
      apply List.find?_eq_none.mpr
      intro n hn
      simpa using hpid n hn
    unfold getPersonDetails
    rw [hfind]

/-- Witness for C9 at a concrete empty store and network. -/
theorem C9_unknown_returns_empty_witness :
    dsGetDeviceData ⟨[], [], []⟩ (str "ghost-device") none 1 25 none none none =
      ⟨[], 0, 1, 25⟩ ∧
    getPersonDetails (str "nobody") ⟨[], []⟩ = none :=
  C9_unknown_returns_empty ⟨[], [], []⟩ (str "ghost-device") none 1 25 none none none
    ⟨[], []⟩ (str "nobody") rfl rfl (by decide)

end EvidenceBrowser
